import Mathlib

/-! # arenaskl: arena-backed skip list

A shallow embedding of `skl.go` and `node.go`.  Machine integers are natural
numbers with an explicit reduction modulo `2^w` wherever the Go code converts
or can overflow.  Node pointers are arena offsets (offset `0` is the nil
pointer), and the arena memory is seen through two typed views: the raw bytes
(keys and values) and the node records.
-/

namespace arenaskl

/-! ## Constants (skl.go, lines 12-19) -/

/-- The constant `maxHeight`. -/
def maxHeight : Nat := 20

/-- The constant `linksSize = unsafe.Sizeof(links{})`: two `uint32` fields. -/
def linksSize : Nat := 8

/-- Size of the node header: `keyOffset`, `keySize` (`uint32`) and `value` (`uint64`). -/
def baseSize : Nat := 16

/-- The constant `MaxNodeSize = unsafe.Sizeof(node{})`: header plus a full tower. -/
def MaxNodeSize : Nat := baseSize + maxHeight * linksSize

/-- The constant `math.MaxUint16`. -/
def MaxUint16 : Nat := 2 ^ 16 - 1

/-- The constant `math.MaxUint32`. -/
def MaxUint32 : Nat := 2 ^ 32 - 1

/-! ## Value word (skl.go, lines 198-210) -/

/-- The function `encodeValue`:
`uint64(meta) << 48 | uint64(valSize) << 32 | uint64(valueOffset)`,
the shifts being 64-bit shifts. -/
def encodeValue (valueOffset valSize meta : Nat) : Nat :=
  ((meta <<< 48) % 2 ^ 64) ||| ((valSize <<< 32) % 2 ^ 64) ||| valueOffset

/-- The function `decodeValue`: `(uint32(value), uint16(value >> 32))`. -/
def decodeValue (value : Nat) : Nat × Nat :=
  (value % 2 ^ 32, (value >>> 32) % 2 ^ 16)

/-- The function `decodeMeta`: `uint16(value >> 48)`. -/
def decodeMeta (value : Nat) : Nat :=
  (value >>> 48) % 2 ^ 16

/-! ## Results of calls -/

/-- The Go `error` values of the package. -/
inductive Error where
  | ErrArenaFull
  | ErrRecordExists
  | ErrRecordUpdated
  | ErrRecordDeleted
  deriving DecidableEq, Repr

/-- Outcome of a call that works on a state `σ`: it returns a value and the new
state, or it panics (the state is the one reached when the panic is raised), or
the loop budget given to the model is used up. -/
inductive Res (σ α : Type) where
  | ok : α → σ → Res σ α
  | panic : String → σ → Res σ α
  | outOfFuel : Res σ α

/-- The conversion `uint32(x)` of a Go `int`. -/
def uint32 (x : Int) : Nat := (x % 2 ^ 32).toNat

/-! ## Node records (node.go, lines 5-35) -/

/-- The struct `links`. -/
structure links where
  nextOffset : Nat
  prevOffset : Nat
  deriving DecidableEq, Repr

/-- The struct `node`; `tower` is the array `[maxHeight]links`. -/
structure node where
  keyOffset : Nat
  keySize : Nat
  value : Nat
  tower : Fin maxHeight → links

/-- The zero value of `node`, the content of fresh arena memory. -/
def node.zero : node :=
  { keyOffset := 0, keySize := 0, value := 0, tower := fun _ => { nextOffset := 0, prevOffset := 0 } }

/-! ## Arena -/

/-- Modelled from the spec: the alignments `Align1` and `Align8` of the missing
file arena.go ("Supported alignments: 1-byte and 8-byte"). -/
inductive Align where
  | Align1
  | Align8
  deriving DecidableEq, Repr

export Align (Align1 Align8)

/-- Modelled from the spec: the number of bytes of an alignment of arena.go. -/
def Align.bytes : Align → Nat
  | Align1 => 1
  | Align8 => 8

/-- Modelled from the spec: the type `Arena` of the missing file arena.go, "fixed
byte capacity, an atomic allocation cursor (logically 64-bit internally)".
`cap` is the capacity, `n` the cursor, `buf` the byte at each index of the
buffer and `nodes` the node record seen at each offset (`raw_at` "reinterprets
arena memory at an offset as a node record"). -/
structure Arena where
  cap : Nat
  n : Nat
  buf : Nat → Nat
  nodes : Nat → node

/-- Modelled from the spec: `NewArena` of arena.go, `new_arena(capacity: u32)`.
The buffer is zeroed and the cursor starts at `1`, "the offset 0 is
reserved/unused" (the first allocation of arena_test.go is at offset `1`). -/
def NewArena (size : Nat) : Arena :=
  { cap := size, n := 1, buf := fun _ => 0, nodes := fun _ => node.zero }

/-- Modelled from the spec: `Arena.Size` of arena.go, "bytes used so far
(saturating at capacity)". -/
def Arena.Size (a : Arena) : Nat := min a.n a.cap

/-- Modelled from the spec: the first offset at or after `n` that is a multiple
of the alignment, "the offset of the first usable (post-padding) byte". -/
def alignUp (n : Nat) (align : Align) : Nat :=
  (n + (align.bytes - 1)) / align.bytes * align.bytes

/-- Modelled from the spec: `Arena.Alloc` of arena.go, `allocate(size,
extra_reserved, alignment) -> offset | ArenaFull`.  It "reserves size +
alignment_padding bytes plus extra_reserved bytes that count toward the arena's
used total but are not returned as part of the addressable range" and "returns
the offset of the first usable (post-padding) byte"; the cursor is advanced in
64-bit arithmetic; it "fails with ArenaFull whenever the requested size would
exceed remaining capacity; once full, the arena's observed size latches at its
capacity and all further allocation attempts fail".  The result is the Go pair
`(offset, err)`, the offset being the zero value when `err` is not nil. -/
def Arena.Alloc (a : Arena) (size overflow : Nat) (align : Align) : (Nat × Option Error) × Arena :=
  if a.n > a.cap then
    ((0, some Error.ErrArenaFull), a)
  else
    let offset := alignUp a.n align
    let newSize := (offset + size + overflow) % 2 ^ 64
    if newSize > a.cap then
      ((0, some Error.ErrArenaFull), { a with n := newSize })
    else
      ((offset, none), { a with n := newSize })

/-- Modelled from the spec: `Arena.GetBytes` of arena.go, `bytes_at(offset, size)`,
"a view into the buffer"; offset `0` is the reserved null, for which the view
is the nil slice (`none`). -/
def Arena.GetBytes (a : Arena) (offset size : Nat) : Option (List Nat) :=
  if offset = 0 then none else some ((List.range size).map (fun i => a.buf (offset + i)))

/-- Modelled from the spec: `Arena.GetPointer` of arena.go, `raw_at(offset)`.
A node pointer is the offset of the record, `0` being the nil pointer. -/
def Arena.GetPointer (_a : Arena) (offset : Nat) : Nat := offset

/-- Modelled from the spec: `Arena.GetPointerOffset` of arena.go,
`offset_of(reference)`, "inverse of raw_at". -/
def Arena.GetPointerOffset (_a : Arena) (ptr : Nat) : Nat := ptr

/-! ## Node construction (node.go, lines 37-53) -/

/-- The function `newNode` of node.go.  The result is the Go pair `(nd, err)`. -/
def newNode (arena : Arena) (height : Nat) : Res Arena (Nat × Option Error) :=
  if height < 1 ∨ height > maxHeight then
    Res.panic "height cannot be less than one or greater than the max height" arena
  else
    let unusedSize : Int := ((maxHeight : Int) - (height : Int)) * (linksSize : Int)
    let r := arena.Alloc (uint32 ((MaxNodeSize : Int) - unusedSize)) (uint32 unusedSize) Align8
    match r.1.2 with
    | some err => Res.ok (0, some err) r.2
    | none => Res.ok (r.2.GetPointer r.1.1, none) r.2

/-! ## Typed access to arena memory

A load or store through a node pointer panics on the nil pointer, and an index
into the tower panics outside `[0, maxHeight)`, as the Go runtime does. -/

/-- Modelled from the spec: the statement `copy(arena.GetBytes(offset, size), src)`,
a write through the view of `Arena.GetBytes` (arena.go is not among the
sources): `copy` moves `min(size, len(src))` bytes, and nothing into the nil view. -/
def Arena.copyInto (a : Arena) (offset size : Nat) (src : List Nat) : Arena :=
  if offset = 0 then a
  else
    { a with buf := fun i =>
        if offset ≤ i ∧ i < offset + min size src.length then src.getD (i - offset) 0 else a.buf i }

/-- A store into a field of the node record behind `nd`. -/
def Arena.storeNode (a : Arena) (nd : Nat) (f : node → node) : Res Arena Unit :=
  if nd = 0 then Res.panic "invalid memory address or nil pointer dereference" a
  else Res.ok () { a with nodes := Function.update a.nodes nd (f (a.nodes nd)) }

/-- The store `nd.tower[h].nextOffset = v`. -/
def Arena.storeNextOffset (a : Arena) (nd h v : Nat) : Res Arena Unit :=
  if hh : h < maxHeight then
    a.storeNode nd (fun x =>
      { x with tower := Function.update x.tower ⟨h, hh⟩ { x.tower ⟨h, hh⟩ with nextOffset := v } })
  else Res.panic "index out of range" a

/-- The store `nd.tower[h].prevOffset = v`. -/
def Arena.storePrevOffset (a : Arena) (nd h v : Nat) : Res Arena Unit :=
  if hh : h < maxHeight then
    a.storeNode nd (fun x =>
      { x with tower := Function.update x.tower ⟨h, hh⟩ { x.tower ⟨h, hh⟩ with prevOffset := v } })
  else Res.panic "index out of range" a

/-- The method `node.getKey`: `arena.GetBytes(n.keyOffset, n.keySize)`. -/
def node.getKey (n : Nat) (arena : Arena) : Res Arena (Option (List Nat)) :=
  if n = 0 then Res.panic "invalid memory address or nil pointer dereference" arena
  else Res.ok (arena.GetBytes (arena.nodes n).keyOffset (arena.nodes n).keySize) arena

/-! ## Skip list (skl.go) -/

/-- The struct `SkipList`.  The field `arena` holds the state of the arena the
list points to. -/
structure SkipList where
  arena : Arena
  head : Nat
  tail : Nat
  height : Nat
  testing : Bool

/-- The loop of `NewSkipList` that links head and tail at every level;
`k` iterations remain, the loop variable is `i = maxHeight - k`. -/
def NewSkipList.link (head tail headOffset tailOffset : Nat) : Nat → Arena → Res Arena Unit
  | 0, a => Res.ok () a
  | k + 1, a =>
    match a.storeNextOffset head (maxHeight - (k + 1)) tailOffset with
    | Res.ok _ a1 =>
      match a1.storePrevOffset tail (maxHeight - (k + 1)) headOffset with
      | Res.ok _ a2 => NewSkipList.link head tail headOffset tailOffset k a2
      | Res.panic msg a2 => Res.panic msg a2
      | Res.outOfFuel => Res.outOfFuel
    | Res.panic msg a1 => Res.panic msg a1
    | Res.outOfFuel => Res.outOfFuel

/-- The function `NewSkipList`. -/
def NewSkipList (arena : Arena) : Res Arena SkipList :=
  match newNode arena maxHeight with
  | Res.panic msg a => Res.panic msg a
  | Res.outOfFuel => Res.outOfFuel
  | Res.ok (_, some _) a1 => Res.panic "arenaSize is not large enough to hold the head node" a1
  | Res.ok (head, none) a1 =>
    match newNode a1 maxHeight with
    | Res.panic msg a => Res.panic msg a
    | Res.outOfFuel => Res.outOfFuel
    | Res.ok (_, some _) a2 => Res.panic "arenaSize is not large enough to hold the tail node" a2
    | Res.ok (tail, none) a2 =>
      let headOffset := a2.GetPointerOffset head
      let tailOffset := a2.GetPointerOffset tail
      match NewSkipList.link head tail headOffset tailOffset maxHeight a2 with
      | Res.panic msg a => Res.panic msg a
      | Res.outOfFuel => Res.outOfFuel
      | Res.ok _ a3 =>
        Res.ok { arena := a3, head := head, tail := tail, height := 1, testing := false } a3

/-- The method `SkipList.Height`: the atomic load of `s.height`. -/
def SkipList.Height (s : SkipList) : Nat := s.height

/-- The method `SkipList.Size`. -/
def SkipList.Size (s : SkipList) : Nat := s.arena.Size

/-- The loop of `randomHeight`: `for h < maxHeight && rnd <= probabilities[h] { h++ }`,
with a bound on the number of iterations. -/
def SkipList.randomHeight.loop (probabilities : Fin maxHeight → Nat) (rnd : Nat) :
    Nat → Nat → Option Nat
  | 0, _ => none
  | fuel + 1, h =>
    if hlt : h < maxHeight then
      if rnd ≤ probabilities ⟨h, hlt⟩ then SkipList.randomHeight.loop probabilities rnd fuel (h + 1)
      else some h
    else some h

/-- The method `SkipList.randomHeight`.  The table `probabilities` and the draw
`rnd = fastrand.Uint32()` are parameters; `none` would be a loop that does not
end within `maxHeight` iterations. -/
def SkipList.randomHeight (_s : SkipList) (probabilities : Fin maxHeight → Nat) (rnd : Nat) :
    Option Nat :=
  SkipList.randomHeight.loop probabilities rnd maxHeight 1

/-- The call `atomic.CompareAndSwapUint32(addr, old, new)` on a word holding `cur`:
whether it swapped, and the word afterwards. -/
def CompareAndSwapUint32 (cur old new : Nat) : Bool × Nat :=
  if cur = old then (true, new) else (false, cur)

/-- The loop of `SkipList.newNode` that raises `s.height`:
`for height > listHeight { if CAS(&s.height, listHeight, height) { break } }`,
run without interference on the word `cur = s.height`, with a bound on the
number of iterations.  The result is `s.height` after the loop. -/
def SkipList.newNode.raise (height listHeight : Nat) : Nat → Nat → Option Nat
  | 0, _ => none
  | fuel + 1, cur =>
    if height > listHeight then
      match CompareAndSwapUint32 cur listHeight height with
      | (true, cur1) => some cur1
      | (false, cur1) => SkipList.newNode.raise height listHeight fuel cur1
    else some cur

/-- The method `SkipList.allocKey`.  The result is `(keyOffset, keySize, err)`. -/
def SkipList.allocKey (s : SkipList) (key : List Nat) : Res SkipList (Nat × Nat × Option Error) :=
  let keySize := key.length % 2 ^ 32
  if keySize > MaxUint32 then Res.panic "key is too large" s
  else
    let r := s.arena.Alloc keySize 0 Align1
    match r.1.2 with
    | none => Res.ok (r.1.1, keySize, none) { s with arena := r.2.copyInto r.1.1 keySize key }
    | some err => Res.ok (r.1.1, keySize, some err) { s with arena := r.2 }

/-- The method `SkipList.allocVal`.  The result is `(word, err)`. -/
def SkipList.allocVal (s : SkipList) (val : List Nat) (meta : Nat) : Res SkipList (Nat × Option Error) :=
  if val.length > MaxUint16 then Res.panic "val is too large" s
  else
    let valSize := val.length % 2 ^ 16
    let r := s.arena.Alloc (valSize % 2 ^ 32) 0 Align1
    match r.1.2 with
    | some err => Res.ok (0, some err) { s with arena := r.2 }
    | none =>
      Res.ok (encodeValue r.1.1 valSize meta, none)
        { s with arena := r.2.copyInto r.1.1 (valSize % 2 ^ 32) val }

/-- The method `SkipList.newNode`.  The result is `(nd, height, err)`; `rnd` is the
draw of `randomHeight` and `fuel` bounds the iterations of the loop on `s.height`. -/
def SkipList.newNode (s : SkipList) (probabilities : Fin maxHeight → Nat) (rnd fuel : Nat)
    (key val : List Nat) (meta : Nat) : Res SkipList (Nat × Nat × Option Error) :=
  match s.randomHeight probabilities rnd with
  | none => Res.outOfFuel
  | some height =>
    match arenaskl.newNode s.arena height with
    | Res.panic msg a => Res.panic msg { s with arena := a }
    | Res.outOfFuel => Res.outOfFuel
    | Res.ok (nd, some err) a => Res.ok (nd, height, some err) { s with arena := a }
    | Res.ok (nd, none) a =>
      let s1 : SkipList := { s with arena := a }
      let listHeight := s1.Height
      match SkipList.newNode.raise height listHeight fuel s1.height with
      | none => Res.outOfFuel
      | some newHeight =>
        let s2 : SkipList := { s1 with height := newHeight }
        match s2.allocKey key with
        | Res.panic msg s3 => Res.panic msg s3
        | Res.outOfFuel => Res.outOfFuel
        | Res.ok (keyOffset, keySize, err) s3 =>
          match s3.arena.storeNode nd (fun x => { x with keyOffset := keyOffset, keySize := keySize }) with
          | Res.panic msg a4 => Res.panic msg { s3 with arena := a4 }
          | Res.outOfFuel => Res.outOfFuel
          | Res.ok _ a4 =>
            let s4 : SkipList := { s3 with arena := a4 }
            match err with
            | some e => Res.ok (nd, height, some e) s4
            | none =>
              match s4.allocVal val meta with
              | Res.panic msg s5 => Res.panic msg s5
              | Res.outOfFuel => Res.outOfFuel
              | Res.ok (value, err5) s5 =>
                match s5.arena.storeNode nd (fun x => { x with value := value }) with
                | Res.panic msg a6 => Res.panic msg { s5 with arena := a6 }
                | Res.outOfFuel => Res.outOfFuel
                | Res.ok _ a6 => Res.ok (nd, height, err5) { s5 with arena := a6 }

/-- The method `SkipList.getNext`. -/
def SkipList.getNext (s : SkipList) (nd h : Nat) : Res SkipList Nat :=
  if nd = 0 then Res.panic "invalid memory address or nil pointer dereference" s
  else if hh : h < maxHeight then
    Res.ok (s.arena.GetPointer ((s.arena.nodes nd).tower ⟨h, hh⟩).nextOffset) s
  else Res.panic "index out of range" s

/-- The method `SkipList.getPrev`. -/
def SkipList.getPrev (s : SkipList) (nd h : Nat) : Res SkipList Nat :=
  if nd = 0 then Res.panic "invalid memory address or nil pointer dereference" s
  else if hh : h < maxHeight then
    Res.ok (s.arena.GetPointer ((s.arena.nodes nd).tower ⟨h, hh⟩).prevOffset) s
  else Res.panic "index out of range" s

/-- The library function `bytes.Compare`: `-1`, `0` or `1` by byte-wise
lexicographic order. -/
def bytesCompare : List Nat → List Nat → Int
  | [], [] => 0
  | [], _ :: _ => -1
  | _ :: _, [] => 1
  | a :: as, b :: bs => if a < b then -1 else if b < a then 1 else bytesCompare as bs

/-- The loop of `findSpliceForLevel`, from the node `prev`, with a bound on the
number of iterations.  The result is `(prev, next, found)`. -/
def SkipList.findSpliceForLevel.loop (s : SkipList) (key : List Nat) (level : Nat) :
    Nat → Nat → Res SkipList (Nat × Nat × Bool)
  | 0, _ => Res.outOfFuel
  | fuel + 1, prev =>
    match s.getNext prev level with
    | Res.panic msg s1 => Res.panic msg s1
    | Res.outOfFuel => Res.outOfFuel
    | Res.ok next _ =>
      match node.getKey next s.arena with
      | Res.panic msg _ => Res.panic msg s
      | Res.outOfFuel => Res.outOfFuel
      | Res.ok none _ => Res.ok (prev, next, false) s
      | Res.ok (some nextKey) _ =>
        let cmp := bytesCompare key nextKey
        if cmp = 0 then Res.ok (prev, next, true) s
        else if cmp < 0 then Res.ok (prev, next, false) s
        else SkipList.findSpliceForLevel.loop s key level fuel next

/-- The method `SkipList.findSpliceForLevel`; `fuel` bounds the iterations of its loop. -/
def SkipList.findSpliceForLevel (s : SkipList) (fuel : Nat) (key : List Nat) (level : Nat)
    (start : Nat) : Res SkipList (Nat × Nat × Bool) :=
  SkipList.findSpliceForLevel.loop s key level fuel start

/-! ## The threshold table (skl.go, lines 36-46)

The function `init` computes in `float64`.  The model keeps the exact value of
every `float64` it meets, a mantissa of 53 binary digits and an exponent, and
rounds each product to nearest, ties to even, as the hardware does. -/

/-- A finite non-negative value of the Go type `float64`: `m * 2^e`, where `m = 0`
or `2^52 ≤ m < 2^53`.  The exponent range of the format is not modelled. -/
structure float64 where
  m : Nat
  e : Int
  deriving DecidableEq, Repr

/-- The number of binary digits of `n`, counted within `fuel` halvings. -/
def bitLength.go : Nat → Nat → Nat
  | 0, _ => 0
  | fuel + 1, n => if n = 0 then 0 else bitLength.go fuel (n / 2) + 1

/-- The number of binary digits of `n`. -/
def bitLength (n : Nat) : Nat := bitLength.go n n

/-- The `float64` nearest to `n * 2^e`, ties to the even mantissa. -/
def float64.round (n : Nat) (e : Int) : float64 :=
  if n = 0 then { m := 0, e := 0 }
  else
    let bits := bitLength n
    if bits ≤ 53 then { m := n * 2 ^ (53 - bits), e := e - ((53 - bits : Nat) : Int) }
    else
      let sh := bits - 53
      let q := n / 2 ^ sh
      let r := n % 2 ^ sh
      let half := 2 ^ (sh - 1)
      let q1 := if r > half ∨ (r = half ∧ q % 2 = 1) then q + 1 else q
      if q1 = 2 ^ 53 then { m := 2 ^ 52, e := e + (sh : Int) + 1 }
      else { m := q1, e := e + (sh : Int) }

/-- The conversion `float64(n)` of a non-negative integer. -/
def float64.ofNat (n : Nat) : float64 := float64.round n 0

/-- The conversion to `float64` of the exact constant `num / den`: the quotient is
taken to at least 64 binary digits, with a sticky bit, then rounded once. -/
def float64.ofRat (num den : Nat) : float64 :=
  let k := bitLength den + 66 - bitLength num
  let q := num * 2 ^ k / den
  let sticky := if num * 2 ^ k % den = 0 then 0 else 1
  float64.round (2 * q + sticky) (-((k + 1 : Nat) : Int))

/-- The product `x * y` of two `float64`, rounded to nearest. -/
def float64.mul (x y : float64) : float64 := float64.round (x.m * y.m) (x.e + y.e)

/-- The conversion `uint32(x)` of a `float64` whose integer part is in range: the
fraction is discarded. -/
def float64.toUint32 (x : float64) : Nat :=
  if 0 ≤ x.e then x.m * 2 ^ x.e.toNat else x.m / 2 ^ (-x.e).toNat

/-- The constant `math.E` of the Go library is `mathE / 10^62`. -/
def mathE : Nat := 271828182845904523536028747135266249775724709369995957496696763

/-- The constant `pValue = 1 / math.E`, converted to `float64` where it is used. -/
def pValue : float64 := float64.ofRat (10 ^ 62) mathE

/-- The loop of `init`, with `k` iterations left, loop variable `i` and product `p`. -/
def init.loop : Nat → Nat → float64 → (Fin maxHeight → Nat) → (Fin maxHeight → Nat)
  | 0, _, _, table => table
  | k + 1, i, p, table =>
    if h : i < maxHeight then
      init.loop k (i + 1) (p.mul pValue)
        (Function.update table ⟨i, h⟩ (((float64.ofNat MaxUint32).mul p).toUint32))
    else table

/-- The function `init`, run on the table it is given. -/
def init (table : Fin maxHeight → Nat) : Fin maxHeight → Nat :=
  init.loop maxHeight 0 (float64.ofNat 1) table

/-- The package variable `probabilities`, zeroed and then filled by `init`. -/
def probabilities : Fin maxHeight → Nat := init (fun _ => 0)

/-! ## Notions used to state the properties -/

/-- A sequence of `Alloc` calls on an arena, each given as `(size, overflow, align)`:
the arena after the last call. -/
def Arena.allocAll (a : Arena) : List (Nat × Nat × Align) → Arena
  | [] => a
  | (size, overflow, align) :: rest => Arena.allocAll (a.Alloc size overflow align).2 rest

/-- The key `a` is ordered strictly before the key `b`. -/
def keyLt (a b : List Nat) : Prop := bytesCompare a b < 0

/-- The order on keys is decided by evaluating `bytesCompare`. -/
instance keyLt.decidable (a b : List Nat) : Decidable (keyLt a b) :=
  inferInstanceAs (Decidable (bytesCompare a b < 0))

/-- The keys of a list are strictly increasing from each node to the next. -/
def keysIncreasing : List (List Nat) → Prop
  | [] => True
  | [_] => True
  | a :: b :: rest => keyLt a b ∧ keysIncreasing (b :: rest)

/-- The level-`level` next-chain from `prev`: the nodes of `chain`, each with its
pointer and the key it stores, follow one another through `getNext`, and the
next node of the last one is the tail sentinel, whose key is the nil slice. -/
def SkipList.IsChain (s : SkipList) (level : Nat) : Nat → List (Nat × List Nat) → Prop
  | prev, [] =>
    s.getNext prev level = Res.ok s.tail s ∧ node.getKey s.tail s.arena = Res.ok none s.arena
  | prev, (nd, k) :: rest =>
    s.getNext prev level = Res.ok nd s ∧ node.getKey nd s.arena = Res.ok (some k) s.arena ∧
      SkipList.IsChain s level nd rest

/-- The node `start` is the head, or it stores a key ordered strictly before `key`. -/
def SkipList.Below (s : SkipList) (start : Nat) (key : List Nat) : Prop :=
  start = s.head ∨ ∃ k, node.getKey start s.arena = Res.ok (some k) s.arena ∧ keyLt k key

/-- A sequence of `SkipList.newNode` calls, one after the other, each given as
`(rnd, key, val, meta)`.  For each call that returns, the record
`(height, nd, Height())` of the drawn height, the node pointer and the height of
the list after the call; the sequence stops at a call that does not return. -/
def SkipList.newNodeSeq (probabilities : Fin maxHeight → Nat) (fuel : Nat) :
    SkipList → List (Nat × List Nat × List Nat × Nat) → List (Nat × Nat × Nat)
  | _, [] => []
  | s, (rnd, key, val, meta) :: rest =>
    match s.newNode probabilities rnd fuel key val meta with
    | Res.ok (nd, height, _) s1 =>
      (height, nd, s1.Height) :: SkipList.newNodeSeq probabilities fuel s1 rest
    | Res.panic _ _ => []
    | Res.outOfFuel => []

/-- Well-formed arenas: the cursor is past the reserved offset `0` and the
capacity is a 32-bit number, as for every arena made by `NewArena`. -/
def Arena.Valid (a : Arena) : Prop := 0 < a.n ∧ a.cap ≤ MaxUint32

/-- The last node of `pre`, or `start` when `pre` is empty. -/
def lastNode (start : Nat) : List (Nat × List Nat) → Nat
  | [] => start
  | (nd, _) :: rest => lastNode nd rest

/-- The first node of `post`, or `tail` when `post` is empty. -/
def firstNode (tail : Nat) : List (Nat × List Nat) → Nat
  | [] => tail
  | (nd, _) :: _ => nd

/-- One call of `SkipList.newNode` seen from `Height()`: between the record `a` before
and the record `b = (height, nd, Height())` after the call, the height of the list
does not decrease, stays in `[1, maxHeight]`, is the maximum of the height before
and the drawn height when the node was allocated, and is unchanged otherwise. -/
def heightStep (a b : Nat × Nat × Nat) : Prop :=
  a.2.2 ≤ b.2.2 ∧ 1 ≤ b.2.2 ∧ b.2.2 ≤ maxHeight ∧ 1 ≤ b.1 ∧ b.1 ≤ maxHeight ∧
    (b.2.1 ≠ 0 → b.2.2 = max a.2.2 b.1) ∧ (b.2.1 = 0 → b.2.2 = a.2.2)

/-! ## Concrete lists -/

/-- The list made by `NewSkipList` on a fresh arena of `2000` bytes. -/
def exampleList : SkipList :=
  match NewSkipList (NewArena 2000) with
  | Res.ok s _ => s
  | _ => { arena := NewArena 2000, head := 0, tail := 0, height := 0, testing := false }

/-- A table of thresholds that halve from one level to the next. -/
def exampleProbabilities : Fin maxHeight → Nat := fun i => 4294967295 / 2 ^ i.val

/-- The list `exampleList` after two `SkipList.newNode` calls, for the keys `[10]`
and `[20]`, whose nodes are then linked at level `0` between head and tail. -/
def exampleChain : SkipList :=
  match exampleList.newNode exampleProbabilities (2 ^ 31) 1 [10] [1] 0 with
  | Res.ok (n1, _, _) s1 =>
    match s1.newNode exampleProbabilities (2 ^ 31) 1 [20] [2] 0 with
    | Res.ok (n2, _, _) s2 =>
      match s2.arena.storeNextOffset s2.head 0 n1 with
      | Res.ok _ a3 =>
        match a3.storeNextOffset n1 0 n2 with
        | Res.ok _ a4 =>
          match a4.storeNextOffset n2 0 s2.tail with
          | Res.ok _ a5 => { s2 with arena := a5 }
          | _ => s2
        | _ => s2
      | _ => s2
    | _ => s1
  | _ => exampleList

/-- The list made by `NewSkipList` on a fresh arena of `540` bytes: after the two
sentinels there is room for one more node and four bytes. -/
def exampleSmall : SkipList :=
  match NewSkipList (NewArena 540) with
  | Res.ok s _ => s
  | _ => { arena := NewArena 540, head := 0, tail := 0, height := 0, testing := false }

/-- The table computed by `init`. -/
def probabilitiesTable : List Nat :=
  [4294967295, 1580030168, 581260615, 213833830, 78665070, 28939261, 10646159, 3916503,
    1440801, 530041, 194991, 71733, 26389, 9708, 3571, 1313, 483, 177, 65, 24]

/-! ## Lemmas on the value word -/

/-- On in-range fields the two `|` of `encodeValue` are additions of disjoint bit ranges. -/
theorem encodeValue_eq_add (valueOffset valSize meta : Nat)
    (ho : valueOffset < 2 ^ 32) (hs : valSize < 2 ^ 16) (hm : meta < 2 ^ 16) :
    encodeValue valueOffset valSize meta = meta * 2 ^ 48 + valSize * 2 ^ 32 + valueOffset := by
  unfold encodeValue
  have h1 : (meta <<< 48) % 2 ^ 64 = 2 ^ 48 * meta := by
    rw [Nat.shiftLeft_eq, Nat.mod_eq_of_lt (by omega)]; ring
  have h2 : (valSize <<< 32) % 2 ^ 64 = 2 ^ 32 * valSize := by
    rw [Nat.shiftLeft_eq, Nat.mod_eq_of_lt (by omega)]; ring
  have h3 : 2 ^ 32 * valSize + valueOffset < 2 ^ 48 := by omega
  rw [h1, h2, Nat.lor_assoc, ← Nat.mul_add_lt_is_or ho, ← Nat.mul_add_lt_is_or h3]
  ring

/-- Decoding the word that `encodeValue` makes of in-range fields gives the fields back. -/
theorem decode_encodeValue (valueOffset valSize meta : Nat)
    (ho : valueOffset < 2 ^ 32) (hs : valSize < 2 ^ 16) (hm : meta < 2 ^ 16) :
    decodeValue (encodeValue valueOffset valSize meta) = (valueOffset, valSize) ∧
      decodeMeta (encodeValue valueOffset valSize meta) = meta := by
  rw [encodeValue_eq_add valueOffset valSize meta ho hs hm]
  unfold decodeValue decodeMeta
  simp only [Nat.shiftRight_eq_div_pow]
  exact ⟨Prod.ext (by simp only; omega) (by simp only; omega), by omega⟩

/-- C1: packing round-trip.  For every `valueOffset < 2^32`, `valSize < 2^16` and
`meta < 2^16`, `decodeValue (encodeValue valueOffset valSize meta)` is
`(valueOffset, valSize)` and `decodeMeta (encodeValue valueOffset valSize meta)` is `meta`. -/
theorem encodeValue_roundtrip (valueOffset valSize meta : Nat)
    (ho : valueOffset < 2 ^ 32) (hs : valSize < 2 ^ 16) (hm : meta < 2 ^ 16) :
    decodeValue (encodeValue valueOffset valSize meta) = (valueOffset, valSize) ∧
      decodeMeta (encodeValue valueOffset valSize meta) = meta := by
  rw [encodeValue_eq_add valueOffset valSize meta ho hs hm]
  unfold decodeValue decodeMeta
  simp only [Nat.shiftRight_eq_div_pow]
  refine ⟨?_, ?_⟩
  · refine Prod.ext ?_ ?_ <;> simp only <;> omega
  · omega

/-- Witness of C1 at offset `7`, size `3`, meta `5`. -/
theorem encodeValue_roundtrip_witness :
    (7 < 2 ^ 32 ∧ 3 < 2 ^ 16 ∧ 5 < 2 ^ 16) ∧
      decodeValue (encodeValue 7 3 5) = (7, 3) ∧ decodeMeta (encodeValue 7 3 5) = 5 :=
  ⟨by decide, encodeValue_roundtrip 7 3 5 (by decide) (by decide) (by decide)⟩

/-! ## Lemmas on the arena -/

/-- The aligned offset is at or after the cursor, less than 8 bytes further. -/
theorem alignUp_ge (n : Nat) (align : Align) : n ≤ alignUp n align ∧ alignUp n align < n + 8 := by
  unfold alignUp
  cases align <;> simp only [Align.bytes] <;> omega

/-- The call `Alloc` does not change the capacity. -/
theorem Alloc_cap (a : Arena) (size overflow : Nat) (align : Align) :
    (a.Alloc size overflow align).2.cap = a.cap := by
  unfold Arena.Alloc
  split
  · rfl
  · dsimp only
    split <;> rfl

/-- On an arena whose cursor is past the capacity `Alloc` fails and changes nothing. -/
theorem Alloc_full (a : Arena) (size overflow : Nat) (align : Align) (h : a.n > a.cap) :
    a.Alloc size overflow align = ((0, some Error.ErrArenaFull), a) := by
  unfold Arena.Alloc
  rw [if_pos h]

/-- After a failed `Alloc` the cursor is past the capacity. -/
theorem Alloc_err_full (a : Arena) (size overflow : Nat) (align : Align)
    (h : (a.Alloc size overflow align).1.2 ≠ none) :
    (a.Alloc size overflow align).2.n > (a.Alloc size overflow align).2.cap := by
  unfold Arena.Alloc at h ⊢
  split
  · assumption
  · dsimp only at h ⊢
    split
    · assumption
    · rename_i h1 h2
      rw [if_neg h1, if_neg h2] at h
      exact absurd rfl h

/-- A sequence of `Alloc` calls leaves a full arena as it is. -/
theorem allocAll_full (reqs : List (Nat × Nat × Align)) (a : Arena) (h : a.n > a.cap) :
    Arena.allocAll a reqs = a := by
  induction reqs with
  | nil => rfl
  | cons r rest ih =>
    obtain ⟨size, overflow, align⟩ := r
    simp only [Arena.allocAll, Alloc_full a size overflow align h]
    exact ih

/-- The arguments that `newNode` computes for `Alloc`, for a height in range. -/
theorem newNode_args (h : Nat) (h1 : 1 ≤ h) (h20 : h ≤ maxHeight) :
    uint32 ((MaxNodeSize : Int) - ((maxHeight : Int) - (h : Int)) * (linksSize : Int)) = baseSize + h * linksSize ∧
    uint32 (((maxHeight : Int) - (h : Int)) * (linksSize : Int)) = (maxHeight - h) * linksSize := by
  unfold uint32 MaxNodeSize baseSize maxHeight linksSize at *
  constructor <;> omega

/-- The call `newNode(arena, 1)` on a fresh arena of capacity `c`, in closed form. -/
theorem newNode_fresh (c : Nat) :
    newNode (NewArena c) 1 =
      if 1 > c then Res.ok (0, some Error.ErrArenaFull) (NewArena c)
      else if 184 > c then Res.ok (0, some Error.ErrArenaFull) { NewArena c with n := 184 }
      else Res.ok (8, none) { NewArena c with n := 184 } := by
  have hreq := newNode_args 1 (by decide) (by decide)
  have e1 : baseSize + 1 * linksSize = 24 := by decide
  have e2 : (maxHeight - 1) * linksSize = 152 := by decide
  have hal : (alignUp 1 Align8 + 24 + 152) % 2 ^ 64 = 184 := by decide
  have hal2 : alignUp 1 Align8 = 8 := by decide
  rw [e1] at hreq
  rw [e2] at hreq
  unfold newNode
  rw [if_neg (by decide)]
  dsimp only
  rw [hreq.1, hreq.2]
  unfold Arena.Alloc NewArena Arena.GetPointer
  dsimp only
  rw [hal, hal2]
  split_ifs <;> rfl

/-! ## Properties of the arena and of node construction -/

/-- C8: arena accounting never wraps.  For every arena of capacity below `2^32` and
every request of 32-bit size and extra-reserved bytes, if the bytes already used
plus the alignment padding, the requested size and the extra-reserved bytes
exceed the capacity (as natural numbers, without wraparound), then `Alloc`
returns `ErrArenaFull` and `Size()` is the capacity afterwards. -/
theorem Alloc_never_wraps (a : Arena) (size overflow : Nat) (align : Align)
    (hcap : a.cap < 2 ^ 32) (hs : size < 2 ^ 32) (ho : overflow < 2 ^ 32)
    (hfull : a.Size + (alignUp a.n align - a.n) + size + overflow > a.cap) :
    (a.Alloc size overflow align).1 = (0, some Error.ErrArenaFull) ∧
      (a.Alloc size overflow align).2.Size = a.cap ∧
      (a.Alloc size overflow align).2.cap = a.cap := by
  have hal := alignUp_ge a.n align
  unfold Arena.Size at hfull ⊢
  unfold Arena.Alloc
  split
  · refine ⟨rfl, ?_, rfl⟩
    dsimp only
    omega
  · dsimp only
    have hn : a.n ≤ a.cap := by omega
    have e : (alignUp a.n align + size + overflow) % 2 ^ 64 = alignUp a.n align + size + overflow :=
      Nat.mod_eq_of_lt (by omega)
    rw [e, if_pos (by omega)]
    refine ⟨rfl, ?_, rfl⟩
    dsimp only
    omega

/-- Witness of C8, the scenario of `TestArenaSizeOverflow`: capacity `2^32-1`;
`Alloc(2^16-1, 0, Align1)` succeeds with offset `1` and `Size() = 2^16`; then
`Alloc(2^32-1, 0, Align1)` fails with `ErrArenaFull` and `Size() = 2^32-1`. -/
theorem Alloc_never_wraps_witness :
    (Arena.Alloc (NewArena (2 ^ 32 - 1)) (2 ^ 16 - 1) 0 Align1).1 = (1, none) ∧
    (Arena.Alloc (NewArena (2 ^ 32 - 1)) (2 ^ 16 - 1) 0 Align1).2.Size = 2 ^ 16 ∧
    (Arena.Alloc (Arena.Alloc (NewArena (2 ^ 32 - 1)) (2 ^ 16 - 1) 0 Align1).2 (2 ^ 32 - 1) 0 Align1).1
      = (0, some Error.ErrArenaFull) ∧
    (Arena.Alloc (Arena.Alloc (NewArena (2 ^ 32 - 1)) (2 ^ 16 - 1) 0 Align1).2 (2 ^ 32 - 1) 0 Align1).2.Size
      = 2 ^ 32 - 1 :=
  ⟨by decide, by decide,
    (Alloc_never_wraps (Arena.Alloc (NewArena (2 ^ 32 - 1)) (2 ^ 16 - 1) 0 Align1).2 (2 ^ 32 - 1) 0 Align1
      (by decide) (by decide) (by decide) (by decide)).1,
    (Alloc_never_wraps (Arena.Alloc (NewArena (2 ^ 32 - 1)) (2 ^ 16 - 1) 0 Align1).2 (2 ^ 32 - 1) 0 Align1
      (by decide) (by decide) (by decide) (by decide)).2.1⟩

/-- C9: once an arena is full it stays full.  After an `Alloc` that returned
`ErrArenaFull`, and after any further sequence of `Alloc` calls, every `Alloc`
(of any size, extra-reserved quantity and alignment) returns `ErrArenaFull`, and
`Size()` is the capacity before and after it. -/
theorem Alloc_full_stays_full (a : Arena) (size overflow : Nat) (align : Align)
    (hfail : (a.Alloc size overflow align).1.2 = some Error.ErrArenaFull)
    (later : List (Nat × Nat × Align)) (size' overflow' : Nat) (align' : Align) :
    ((Arena.allocAll (a.Alloc size overflow align).2 later).Alloc size' overflow' align').1
        = (0, some Error.ErrArenaFull) ∧
      (Arena.allocAll (a.Alloc size overflow align).2 later).Size = a.cap ∧
      ((Arena.allocAll (a.Alloc size overflow align).2 later).Alloc size' overflow' align').2.Size
        = a.cap := by
  have hf := Alloc_err_full a size overflow align (by rw [hfail]; simp)
  have hc := Alloc_cap a size overflow align
  rw [allocAll_full later _ hf, Alloc_full _ size' overflow' align' hf]
  refine ⟨rfl, ?_, ?_⟩
  · unfold Arena.Size; omega
  · unfold Arena.Size; dsimp only; omega

/-- Witness of C9: capacity `100`, a failed `Alloc(200)`, two more calls, then
`Alloc(1, 0, Align1)` fails and `Size()` is `100`. -/
theorem Alloc_full_stays_full_witness :
    (Arena.Alloc (NewArena 100) 200 0 Align1).1.2 = some Error.ErrArenaFull ∧
    ((Arena.allocAll (Arena.Alloc (NewArena 100) 200 0 Align1).2 [(5, 0, Align8), (0, 0, Align1)]).Alloc
        1 0 Align1).1 = (0, some Error.ErrArenaFull) ∧
    (Arena.allocAll (Arena.Alloc (NewArena 100) 200 0 Align1).2 [(5, 0, Align8), (0, 0, Align1)]).Size
        = 100 :=
  ⟨by decide,
    (Alloc_full_stays_full (NewArena 100) 200 0 Align1 (by decide)
      [(5, 0, Align8), (0, 0, Align1)] 1 0 Align1).1,
    (Alloc_full_stays_full (NewArena 100) 200 0 Align1 (by decide)
      [(5, 0, Align8), (0, 0, Align1)] 1 0 Align1).2.1⟩

/-- C10: node at the arena boundary.  On a fresh arena of capacity `c`,
`newNode(arena, 1)` fails with `ErrArenaFull` and a nil node when `c < 184`, and
succeeds when `184 ≤ c`; on success the offset is not nil, is a multiple of `8`,
and the `MaxNodeSize` bytes of the node record from that offset end within the
capacity, as do the bytes accounted by the arena. -/
theorem newNode_arena_end (c : Nat) :
    (c < 184 ∧ ∃ a', newNode (NewArena c) 1 = Res.ok (0, some Error.ErrArenaFull) a') ∨
    (184 ≤ c ∧ ∃ off a', newNode (NewArena c) 1 = Res.ok (off, none) a' ∧
      off ≠ 0 ∧ off % 8 = 0 ∧ off + MaxNodeSize ≤ c ∧ a'.cap = c ∧ a'.Size ≤ c) := by
  rw [newNode_fresh c]
  by_cases hc : c < 184
  · left
    refine ⟨hc, ?_⟩
    split_ifs
    · exact ⟨_, rfl⟩
    · exact ⟨_, rfl⟩
  · right
    refine ⟨by omega, 8, { NewArena c with n := 184 }, ?_, by decide, by decide, ?_, rfl, ?_⟩
    · rw [if_neg (by omega), if_neg (by omega)]
    · have : MaxNodeSize = 176 := by decide
      omega
    · unfold Arena.Size
      exact Nat.min_le_right _ _

/-! ## Random height, construction and height of the list -/

/-- The loop of `randomHeight` ends within `maxHeight - h + 1` iterations, in `[h, maxHeight]`. -/
theorem randomHeight_loop_range (probabilities : Fin maxHeight → Nat) (rnd : Nat) :
    ∀ (fuel h : Nat), maxHeight - h < fuel → h ≤ maxHeight →
      ∃ r, SkipList.randomHeight.loop probabilities rnd fuel h = some r ∧ h ≤ r ∧ r ≤ maxHeight := by
  intro fuel
  induction fuel with
  | zero => intro h hf _; omega
  | succ fuel ih =>
    intro h hf hle
    unfold SkipList.randomHeight.loop
    by_cases hlt : h < maxHeight
    · rw [dif_pos hlt]
      by_cases hr : rnd ≤ probabilities ⟨h, hlt⟩
      · rw [if_pos hr]
        obtain ⟨r, hr1, hr2, hr3⟩ := ih (h + 1) (by omega) (by omega)
        exact ⟨r, hr1, by omega, hr3⟩
      · rw [if_neg hr]
        exact ⟨h, rfl, le_refl h, hle⟩
    · rw [dif_neg hlt]
      exact ⟨h, rfl, le_refl h, hle⟩

/-- The method `randomHeight` returns a height in `[1, maxHeight]`. -/
theorem randomHeight_some (s : SkipList) (probabilities : Fin maxHeight → Nat) (rnd : Nat) :
    ∃ h, s.randomHeight probabilities rnd = some h ∧ 1 ≤ h ∧ h ≤ maxHeight := by
  unfold SkipList.randomHeight
  exact randomHeight_loop_range probabilities rnd maxHeight 1 (by decide) (by decide)

/-- For a height in range node-level `newNode` returns. -/
theorem newNode_ok_of_range (arena : Arena) (h : Nat) (h1 : 1 ≤ h) (h20 : h ≤ maxHeight) :
    ∃ r a, newNode arena h = Res.ok r a := by
  unfold newNode
  rw [if_neg (by omega)]
  dsimp only
  split
  · exact ⟨_, _, rfl⟩
  · exact ⟨_, _, rfl⟩

/-- For a height in range node-level `newNode` returns an error with a nil node, or a node. -/
theorem newNode_result (arena : Arena) (h : Nat) (h1 : 1 ≤ h) (h20 : h ≤ maxHeight) :
    (∃ err a, newNode arena h = Res.ok (0, some err) a) ∨
      (∃ off a, newNode arena h = Res.ok (off, none) a) := by
  unfold newNode
  rw [if_neg (by omega)]
  dsimp only
  split
  · exact Or.inl ⟨_, _, rfl⟩
  · exact Or.inr ⟨_, _, rfl⟩

/-- Run alone, the loop on `s.height` ends at its first iteration with the maximum. -/
theorem raise_alone (height cur fuel : Nat) (hfuel : 1 ≤ fuel) :
    SkipList.newNode.raise height cur fuel cur = some (max cur height) := by
  obtain ⟨f, rfl⟩ : ∃ f, fuel = f + 1 := ⟨fuel - 1, by omega⟩
  unfold SkipList.newNode.raise CompareAndSwapUint32
  by_cases hgt : height > cur
  · rw [if_pos hgt, if_pos rfl]
    dsimp only
    rw [max_eq_right (by omega)]
  · rw [if_neg hgt, max_eq_left (by omega)]

/-- The method `allocKey` returns and changes the arena only. -/
theorem allocKey_ok (s : SkipList) (key : List Nat) :
    ∃ keyOffset keySize err a,
      s.allocKey key = Res.ok (keyOffset, keySize, err) { s with arena := a } := by
  unfold SkipList.allocKey
  dsimp only
  have hk : ¬ key.length % 2 ^ 32 > MaxUint32 := by unfold MaxUint32; omega
  rw [if_neg hk]
  split
  · exact ⟨_, _, _, _, rfl⟩
  · exact ⟨_, _, _, _, rfl⟩

/-- The method `allocVal` panics on the state it got, or returns and changes the arena only. -/
theorem allocVal_cases (s : SkipList) (val : List Nat) (meta : Nat) :
    s.allocVal val meta = Res.panic "val is too large" s ∨
      ∃ word err a, s.allocVal val meta = Res.ok (word, err) { s with arena := a } := by
  unfold SkipList.allocVal
  by_cases hv : val.length > MaxUint16
  · rw [if_pos hv]
    exact Or.inl rfl
  · rw [if_neg hv]
    dsimp only
    right
    split
    · exact ⟨_, _, _, rfl⟩
    · exact ⟨_, _, _, rfl⟩

/-- A store through a node pointer panics exactly on the nil pointer. -/
theorem storeNode_cases (a : Arena) (nd : Nat) (f : node → node) :
    (nd = 0 ∧ a.storeNode nd f = Res.panic "invalid memory address or nil pointer dereference" a) ∨
      (nd ≠ 0 ∧ ∃ a1, a.storeNode nd f = Res.ok () a1) := by
  unfold Arena.storeNode
  by_cases h : nd = 0
  · rw [if_pos h]
    exact Or.inl ⟨h, rfl⟩
  · rw [if_neg h]
    exact Or.inr ⟨h, _, rfl⟩

/-- The outcomes of `SkipList.newNode` run alone, with their effect on `s.height`. -/
theorem SkipList_newNode_cases (s : SkipList) (probabilities : Fin maxHeight → Nat)
    (rnd fuel : Nat) (hfuel : 1 ≤ fuel) (key val : List Nat) (meta : Nat) :
    ∃ h, s.randomHeight probabilities rnd = some h ∧ 1 ≤ h ∧ h ≤ maxHeight ∧
      ((∃ err s1, s.newNode probabilities rnd fuel key val meta = Res.ok (0, h, some err) s1 ∧
          s1.height = s.height) ∨
        (∃ nd err s1, s.newNode probabilities rnd fuel key val meta = Res.ok (nd, h, err) s1 ∧
          nd ≠ 0 ∧ s1.height = max s.height h) ∨
        (∃ msg s1, s.newNode probabilities rnd fuel key val meta = Res.panic msg s1 ∧
          msg ≠ "height cannot be less than one or greater than the max height" ∧
          s1.height = max s.height h)) := by
  obtain ⟨h, hr, h1, h20⟩ := randomHeight_some s probabilities rnd
  refine ⟨h, hr, h1, h20, ?_⟩
  unfold SkipList.newNode
  rw [hr]
  dsimp only
  rcases newNode_result s.arena h h1 h20 with ⟨err, a, hn⟩ | ⟨off, a, hn⟩
  · rw [hn]
    exact Or.inl ⟨err, _, rfl, rfl⟩
  · rw [hn]
    dsimp only [SkipList.Height]
    rw [raise_alone h s.height fuel hfuel]
    dsimp only
    right
    obtain ⟨ko, ks, kerr, a3, hk⟩ := allocKey_ok
      ({ arena := a, head := s.head, tail := s.tail, height := max s.height h, testing := s.testing }) key
    rw [hk]
    dsimp only
    rcases storeNode_cases a3 off (fun x => { x with keyOffset := ko, keySize := ks }) with
      ⟨_, hs⟩ | ⟨hoff, a4, hs⟩
    · rw [hs]
      exact Or.inr ⟨_, _, rfl, by decide, rfl⟩
    · rw [hs]
      dsimp only
      cases kerr with
      | some e => exact Or.inl ⟨off, _, _, rfl, hoff, rfl⟩
      | none =>
        dsimp only
        rcases allocVal_cases
          ({ arena := a4, head := s.head, tail := s.tail, height := max s.height h,
             testing := s.testing }) val meta with hv | ⟨word, verr, a5, hv⟩
        · rw [hv]
          exact Or.inr ⟨_, _, rfl, by decide, rfl⟩
        · rw [hv]
          dsimp only
          rcases storeNode_cases a5 off (fun x => { x with value := word }) with
            ⟨h0, _⟩ | ⟨_, a6, hs6⟩
          · exact absurd h0 hoff
          · rw [hs6]
            exact Or.inl ⟨off, _, _, rfl, hoff, rfl⟩

/-- No run of `SkipList.newNode` ends in the height-range panic of node-level `newNode`. -/
theorem SkipList_newNode_no_height_panic (s : SkipList) (probabilities : Fin maxHeight → Nat)
    (rnd fuel : Nat) (key val : List Nat) (meta : Nat) (st : SkipList) :
    s.newNode probabilities rnd fuel key val meta ≠
      Res.panic "height cannot be less than one or greater than the max height" st := by
  obtain ⟨h, hr, h1, h20⟩ := randomHeight_some s probabilities rnd
  unfold SkipList.newNode
  rw [hr]
  dsimp only
  rcases newNode_result s.arena h h1 h20 with ⟨err, a, hn⟩ | ⟨off, a, hn⟩
  · rw [hn]
    exact fun hc => Res.noConfusion hc
  · rw [hn]
    dsimp only [SkipList.Height]
    cases SkipList.newNode.raise h s.height fuel s.height with
    | none => exact fun hc => Res.noConfusion hc
    | some nh =>
      dsimp only
      obtain ⟨ko, ks, kerr, a3, hk⟩ := allocKey_ok
        ({ arena := a, head := s.head, tail := s.tail, height := nh, testing := s.testing }) key
      rw [hk]
      dsimp only
      rcases storeNode_cases a3 off (fun x => { x with keyOffset := ko, keySize := ks }) with
        ⟨_, hs⟩ | ⟨hoff, a4, hs⟩
      · rw [hs]
        intro hc
        injection hc with hm _
        exact absurd hm (by decide)
      · rw [hs]
        dsimp only
        cases kerr with
        | some e => exact fun hc => Res.noConfusion hc
        | none =>
          dsimp only
          rcases allocVal_cases
            ({ arena := a4, head := s.head, tail := s.tail, height := nh,
               testing := s.testing }) val meta with hv | ⟨word, verr, a5, hv⟩
          · rw [hv]
            intro hc
            injection hc with hm _
            exact absurd hm (by decide)
          · rw [hv]
            dsimp only
            rcases storeNode_cases a5 off (fun x => { x with value := word }) with
              ⟨h0, _⟩ | ⟨_, a6, hs6⟩
            · exact absurd h0 hoff
            · rw [hs6]
              exact fun hc => Res.noConfusion hc

/-- C3: for every draw `rnd` and every content of the table `probabilities`,
`randomHeight` returns a height `h` with `1 ≤ h ≤ maxHeight`; the call of node-level
`newNode` with that height returns, and `SkipList.newNode` never ends in the
height-range panic of node-level `newNode`. -/
theorem randomHeight_range (s : SkipList) (probabilities : Fin maxHeight → Nat) (rnd : Nat) :
    ∃ h, s.randomHeight probabilities rnd = some h ∧ 1 ≤ h ∧ h ≤ maxHeight ∧
      (∃ r a, newNode s.arena h = Res.ok r a) ∧
      ∀ (fuel : Nat) (key val : List Nat) (meta : Nat) (st : SkipList),
        s.newNode probabilities rnd fuel key val meta ≠
          Res.panic "height cannot be less than one or greater than the max height" st := by
  obtain ⟨h, hr, h1, h20⟩ := randomHeight_some s probabilities rnd
  exact ⟨h, hr, h1, h20, newNode_ok_of_range s.arena h h1 h20,
    fun fuel key val meta st =>
      SkipList_newNode_no_height_panic s probabilities rnd fuel key val meta st⟩

/-- Along a sequence of `SkipList.newNode` calls each record is a `heightStep` from the one before. -/
theorem newNodeSeq_chain (probabilities : Fin maxHeight → Nat) (fuel : Nat) (hfuel : 1 ≤ fuel)
    (calls : List (Nat × List Nat × List Nat × Nat)) :
    ∀ (s : SkipList) (h0 nd0 : Nat), 1 ≤ s.height → s.height ≤ maxHeight →
      List.Chain heightStep (h0, nd0, s.Height) (SkipList.newNodeSeq probabilities fuel s calls) := by
  induction calls with
  | nil => intro s h0 nd0 _ _; exact List.Chain.nil
  | cons c rest ih =>
    intro s h0 nd0 hs1 hs20
    obtain ⟨rnd, key, val, meta⟩ := c
    unfold SkipList.newNodeSeq
    obtain ⟨h, _, h1, h20, hcases⟩ :=
      SkipList_newNode_cases s probabilities rnd fuel hfuel key val meta
    rcases hcases with ⟨err, s1, hres, hh⟩ | ⟨nd, err, s1, hres, hnd, hh⟩ | ⟨msg, s1, hres, _, _⟩
    · rw [hres]
      dsimp only
      refine List.Chain.cons ?_ (ih s1 h 0 (by omega) (by omega))
      unfold heightStep SkipList.Height
      dsimp only
      refine ⟨by omega, by omega, by omega, h1, h20, fun hc => absurd rfl hc, fun _ => hh⟩
    · rw [hres]
      dsimp only
      have hmax : max s.height h ≤ maxHeight := max_le hs20 h20
      have hmax1 : s.height ≤ max s.height h := le_max_left _ _
      refine List.Chain.cons ?_ (ih s1 h nd (by omega) (by omega))
      unfold heightStep SkipList.Height
      dsimp only
      refine ⟨by omega, by omega, by omega, h1, h20, fun _ => hh, fun hc => absurd hc hnd⟩
    · rw [hres]
      exact List.Chain.nil

/-- The store of a next offset through a non-nil pointer at a level in range. -/
theorem storeNextOffset_ok (a : Arena) (nd h v : Nat) (hnd : nd ≠ 0) (hh : h < maxHeight) :
    a.storeNextOffset nd h v = Res.ok ()
      { a with nodes := (Function.update a.nodes nd
          { (a.nodes nd) with tower := (Function.update (a.nodes nd).tower ⟨h, hh⟩
              { ((a.nodes nd).tower ⟨h, hh⟩) with nextOffset := v }) }) } := by
  unfold Arena.storeNextOffset Arena.storeNode
  rw [dif_pos hh, if_neg hnd]

/-- The store of a prev offset through a non-nil pointer at a level in range. -/
theorem storePrevOffset_ok (a : Arena) (nd h v : Nat) (hnd : nd ≠ 0) (hh : h < maxHeight) :
    a.storePrevOffset nd h v = Res.ok ()
      { a with nodes := (Function.update a.nodes nd
          { (a.nodes nd) with tower := (Function.update (a.nodes nd).tower ⟨h, hh⟩
              { ((a.nodes nd).tower ⟨h, hh⟩) with prevOffset := v }) }) } := by
  unfold Arena.storePrevOffset Arena.storeNode
  rw [dif_pos hh, if_neg hnd]

/-- One iteration of the linking loop of `NewSkipList`. -/
theorem link_step (a : Arena) (head tail ho tl i : Nat) (hh : head ≠ 0) (ht : tail ≠ 0)
    (hi : i < maxHeight) :
    ∃ a1 a2, a.storeNextOffset head i tl = Res.ok () a1 ∧
      a1.storePrevOffset tail i ho = Res.ok () a2 ∧ a2.cap = a.cap ∧ a2.n = a.n ∧
      a2.buf = a.buf ∧
      (∀ j (hj : j < maxHeight), ((a2.nodes head).tower ⟨j, hj⟩).nextOffset =
        if j = i then tl else ((a.nodes head).tower ⟨j, hj⟩).nextOffset) ∧
      (∀ j (hj : j < maxHeight), ((a2.nodes tail).tower ⟨j, hj⟩).prevOffset =
        if j = i then ho else ((a.nodes tail).tower ⟨j, hj⟩).prevOffset) := by
  refine ⟨_, _, storeNextOffset_ok a head i tl hh hi, storePrevOffset_ok _ tail i ho ht hi,
    rfl, rfl, rfl, ?_, ?_⟩
  · intro j hj
    by_cases hji : j = i
    · subst hji
      by_cases hht : head = tail
      · subst hht; simp
      · simp [Function.update_apply, hht]
    · by_cases hht : head = tail
      · subst hht; simp [Function.update_apply, Fin.ext_iff, hji]
      · simp [Function.update_apply, Fin.ext_iff, hji, hht]
  · intro j hj
    by_cases hji : j = i
    · subst hji; simp
    · by_cases hht : tail = head
      · subst hht; simp [Function.update_apply, Fin.ext_iff, hji]
      · simp [Function.update_apply, Fin.ext_iff, hji, hht]

/-- The last `k` iterations of the linking loop of `NewSkipList` set the levels from `maxHeight - k` on. -/
theorem link_spec (head tail ho tl : Nat) (hh : head ≠ 0) (ht : tail ≠ 0) :
    ∀ (k : Nat) (a : Arena), k ≤ maxHeight →
      ∃ a1, NewSkipList.link head tail ho tl k a = Res.ok () a1 ∧
        a1.cap = a.cap ∧ a1.n = a.n ∧ a1.buf = a.buf ∧
        (∀ j (hj : j < maxHeight), ((a1.nodes head).tower ⟨j, hj⟩).nextOffset =
          if maxHeight - k ≤ j then tl else ((a.nodes head).tower ⟨j, hj⟩).nextOffset) ∧
        (∀ j (hj : j < maxHeight), ((a1.nodes tail).tower ⟨j, hj⟩).prevOffset =
          if maxHeight - k ≤ j then ho else ((a.nodes tail).tower ⟨j, hj⟩).prevOffset) := by
  intro k
  induction k with
  | zero =>
    intro a _
    refine ⟨a, rfl, rfl, rfl, rfl, ?_, ?_⟩
    · intro j hj
      rw [if_neg (by omega)]
    · intro j hj
      rw [if_neg (by omega)]
  | succ k ih =>
    intro a hk
    have hi : maxHeight - (k + 1) < maxHeight := by omega
    obtain ⟨a1, a2, hs1, hs2, hcap, hn, hbuf, hnext, hprev⟩ :=
      link_step a head tail ho tl (maxHeight - (k + 1)) hh ht hi
    obtain ⟨a3, hl, hcap3, hn3, hbuf3, hnext3, hprev3⟩ := ih a2 (by omega)
    refine ⟨a3, ?_, by rw [hcap3, hcap], by rw [hn3, hn], by rw [hbuf3, hbuf], ?_, ?_⟩
    · unfold NewSkipList.link
      rw [hs1]
      dsimp only
      rw [hs2]
      exact hl
    · intro j hj
      rw [hnext3 j hj, hnext j hj]
      split_ifs <;> first | rfl | omega
    · intro j hj
      rw [hprev3 j hj, hprev j hj]
      split_ifs <;> first | rfl | omega

/-- A successful `Alloc` returns the aligned offset and moves the cursor within the capacity. -/
theorem Alloc_success (a : Arena) (size overflow : Nat) (align : Align)
    (h : (a.Alloc size overflow align).1.2 = none) :
    a.n ≤ a.cap ∧ (a.Alloc size overflow align).1.1 = alignUp a.n align ∧
      (a.Alloc size overflow align).2 =
        { a with n := (alignUp a.n align + size + overflow) % 2 ^ 64 } ∧
      (alignUp a.n align + size + overflow) % 2 ^ 64 ≤ a.cap := by
  unfold Arena.Alloc at h ⊢
  by_cases h1 : a.n > a.cap
  · rw [if_pos h1] at h
    exact absurd h (by simp)
  · rw [if_neg h1] at h ⊢
    dsimp only at h ⊢
    by_cases h2 : (alignUp a.n align + size + overflow) % 2 ^ 64 > a.cap
    · rw [if_pos h2] at h
      exact absurd h (by simp)
    · rw [if_neg h2]
      exact ⟨by omega, rfl, rfl, by omega⟩

/-- A successful node-level `newNode` in terms of the arena. -/
theorem newNode_success (arena : Arena) (h head : Nat) (a1 : Arena) (h1 : 1 ≤ h)
    (h20 : h ≤ maxHeight) (hn : newNode arena h = Res.ok (head, none) a1) :
    arena.n ≤ arena.cap ∧ head = alignUp arena.n Align8 ∧
      a1 = { arena with n := (alignUp arena.n Align8 + MaxNodeSize) % 2 ^ 64 } ∧
      (alignUp arena.n Align8 + MaxNodeSize) % 2 ^ 64 ≤ arena.cap := by
  unfold newNode at hn
  rw [if_neg (by omega)] at hn
  dsimp only at hn
  rw [(newNode_args h h1 h20).1, (newNode_args h h1 h20).2] at hn
  have hsum : baseSize + h * linksSize + (maxHeight - h) * linksSize = MaxNodeSize := by
    unfold MaxNodeSize baseSize maxHeight linksSize at *; omega
  split at hn
  · injection hn with hn1 _
    simp at hn1
  · rename_i hnone
    obtain ⟨hle, hoff, hst, hfit⟩ := Alloc_success arena _ _ Align8 hnone
    injection hn with hn1 hn2
    injection hn1 with hn1 _
    rw [Nat.add_assoc, hsum] at hst hfit
    refine ⟨hle, ?_, ?_, hfit⟩
    · rw [← hn1, ← hoff]; rfl
    · rw [← hn2, hst]

/-- On a well-formed arena a successful `newNode` returns a non-nil node and a well-formed arena. -/
theorem newNode_success_valid (arena : Arena) (h head : Nat) (a1 : Arena) (h1 : 1 ≤ h)
    (h20 : h ≤ maxHeight) (hv : arena.Valid) (hn : newNode arena h = Res.ok (head, none) a1) :
    head ≠ 0 ∧ a1.Valid := by
  obtain ⟨hle, hhead, ha1, _⟩ := newNode_success arena h head a1 h1 h20 hn
  obtain ⟨hpos, hcap⟩ := hv
  have hal := alignUp_ge arena.n Align8
  have hM : MaxNodeSize = 176 := by decide
  unfold MaxUint32 at hcap
  refine ⟨by omega, ?_⟩
  rw [ha1]
  unfold Arena.Valid MaxUint32
  dsimp only
  rw [Nat.mod_eq_of_lt (by omega)]
  omega

/-- With two non-nil sentinels `NewSkipList` returns the linked list. -/
theorem NewSkipList_ok (arena : Arena) (head tail : Nat) (a1 a2 : Arena) (hh : head ≠ 0)
    (ht : tail ≠ 0)
    (h1 : newNode arena maxHeight = Res.ok (head, none) a1)
    (h2 : newNode a1 maxHeight = Res.ok (tail, none) a2) :
    ∃ a3, NewSkipList arena =
        Res.ok { arena := a3, head := head, tail := tail, height := 1, testing := false } a3 ∧
      a3.cap = a2.cap ∧ a3.n = a2.n ∧ a3.buf = a2.buf ∧
      (∀ i (hi : i < maxHeight), ((a3.nodes head).tower ⟨i, hi⟩).nextOffset = tail) ∧
      (∀ i (hi : i < maxHeight), ((a3.nodes tail).tower ⟨i, hi⟩).prevOffset = head) := by
  obtain ⟨a3, hl, hcap, hn, hbuf, hnext, hprev⟩ :=
    link_spec head tail (a2.GetPointerOffset head) (a2.GetPointerOffset tail) hh ht maxHeight a2
      (le_refl _)
  refine ⟨a3, ?_, hcap, hn, hbuf, ?_, ?_⟩
  · unfold NewSkipList
    rw [h1]
    dsimp only
    rw [h2]
    dsimp only
    rw [hl]
  · intro i hi
    rw [hnext i hi, if_pos (by omega)]
    rfl
  · intro i hi
    rw [hprev i hi, if_pos (by omega)]
    rfl

/-- C6: when both sentinel allocations succeed on a well-formed arena, `NewSkipList`
returns a list of height `1` whose head and tail are the two allocated nodes, and
for every level `i < maxHeight` the next offset of the head at level `i` is the
offset of the tail and the prev offset of the tail at level `i` is the offset of
the head, so `getNext(head, i)` is the tail and `getPrev(tail, i)` is the head. -/
theorem NewSkipList_links (arena : Arena) (head tail : Nat) (a1 a2 : Arena) (hv : arena.Valid)
    (h1 : newNode arena maxHeight = Res.ok (head, none) a1)
    (h2 : newNode a1 maxHeight = Res.ok (tail, none) a2) :
    ∃ skl, NewSkipList arena = Res.ok skl skl.arena ∧ skl.head = head ∧ skl.tail = tail ∧
      skl.Height = 1 ∧
      ∀ i (hi : i < maxHeight),
        ((skl.arena.nodes skl.head).tower ⟨i, hi⟩).nextOffset
            = skl.arena.GetPointerOffset skl.tail ∧
          ((skl.arena.nodes skl.tail).tower ⟨i, hi⟩).prevOffset
            = skl.arena.GetPointerOffset skl.head ∧
          skl.getNext skl.head i = Res.ok skl.tail skl ∧
          skl.getPrev skl.tail i = Res.ok skl.head skl := by
  obtain ⟨hh, hv1⟩ := newNode_success_valid arena maxHeight head a1 (by decide) (le_refl _) hv h1
  obtain ⟨ht, _⟩ := newNode_success_valid a1 maxHeight tail a2 (by decide) (le_refl _) hv1 h2
  obtain ⟨a3, hres, _, _, _, hnext, hprev⟩ := NewSkipList_ok arena head tail a1 a2 hh ht h1 h2
  refine ⟨_, hres, rfl, rfl, rfl, ?_⟩
  intro i hi
  refine ⟨hnext i hi, hprev i hi, ?_, ?_⟩
  · unfold SkipList.getNext
    dsimp only
    rw [if_neg hh, dif_pos hi, hnext i hi]
    rfl
  · unfold SkipList.getPrev
    dsimp only
    rw [if_neg ht, dif_pos hi, hprev i hi]
    rfl

/-- A fresh arena of 32-bit capacity is well formed. -/
theorem NewArena_valid (c : Nat) (hc : c ≤ MaxUint32) : (NewArena c).Valid :=
  ⟨Nat.one_pos, hc⟩

/-- Witness of C6 on a fresh arena of `1000` bytes: the head is at offset `8`
and the tail at offset `184`. -/
theorem NewSkipList_links_witness :
    ∃ skl, NewSkipList (NewArena 1000) = Res.ok skl skl.arena ∧ skl.head = 8 ∧ skl.tail = 184 ∧
      skl.Height = 1 ∧
      ∀ i (hi : i < maxHeight),
        ((skl.arena.nodes skl.head).tower ⟨i, hi⟩).nextOffset
            = skl.arena.GetPointerOffset skl.tail ∧
          ((skl.arena.nodes skl.tail).tower ⟨i, hi⟩).prevOffset
            = skl.arena.GetPointerOffset skl.head ∧
          skl.getNext skl.head i = Res.ok skl.tail skl ∧
          skl.getPrev skl.tail i = Res.ok skl.head skl :=
  NewSkipList_links (NewArena 1000) 8 184 { NewArena 1000 with n := 184 }
    { NewArena 1000 with n := 360 } (NewArena_valid 1000 (by decide)) rfl rfl

/-- The list returned by `NewSkipList` has height `1`. -/
theorem NewSkipList_height (arena : Arena) (s : SkipList) (a : Arena)
    (h : NewSkipList arena = Res.ok s a) : s.height = 1 := by
  unfold NewSkipList at h
  split at h
  · exact Res.noConfusion h
  · exact Res.noConfusion h
  · exact Res.noConfusion h
  · split at h
    · exact Res.noConfusion h
    · exact Res.noConfusion h
    · exact Res.noConfusion h
    · dsimp only at h
      split at h
      · exact Res.noConfusion h
      · exact Res.noConfusion h
      · injection h with h1 _
        rw [← h1]

/-- C7: height invariant.  Starting from the list returned by `NewSkipList` and
applying any sequence of `SkipList.newNode` calls one after the other, `Height()`
is `1` at the start and, from each call that returns to the next, it never
decreases, stays within `[1, maxHeight]`, equals the maximum of the height before
and the drawn height when the node allocation succeeded, and is unchanged when it
failed; with a loop budget of at least one iteration no call runs out of it. -/
theorem Height_invariant (arena : Arena) (s0 : SkipList) (a0 : Arena)
    (probabilities : Fin maxHeight → Nat) (fuel : Nat) (hfuel : 1 ≤ fuel)
    (h0 : NewSkipList arena = Res.ok s0 a0) (calls : List (Nat × List Nat × List Nat × Nat)) :
    s0.Height = 1 ∧
      List.Chain heightStep (0, 0, s0.Height) (SkipList.newNodeSeq probabilities fuel s0 calls) ∧
      ∀ (s : SkipList) (rnd : Nat) (key val : List Nat) (meta : Nat),
        s.newNode probabilities rnd fuel key val meta ≠ Res.outOfFuel := by
  have h1 := NewSkipList_height arena s0 a0 h0
  refine ⟨h1, newNodeSeq_chain probabilities fuel hfuel calls s0 0 0 (by omega)
    (by rw [h1]; decide), ?_⟩
  intro s rnd key val meta
  obtain ⟨h, _, _, _, hcases⟩ := SkipList_newNode_cases s probabilities rnd fuel hfuel key val meta
  rcases hcases with ⟨_, _, hres, _⟩ | ⟨_, _, _, hres, _, _⟩ | ⟨_, _, hres, _, _⟩ <;>
    (rw [hres]; exact fun hc => Res.noConfusion hc)

/-- Witness of C7: three calls on the list made on a fresh arena of `2000` bytes. -/
theorem Height_invariant_witness :
    SkipList.newNodeSeq exampleProbabilities 1 exampleList
        [(2 ^ 31, [1], [2], 0), (2 ^ 29, [3], [4, 5], 1), (2 ^ 30, [6], [], 7)]
      = [(1, 360, 1), (3, 544, 3), (2, 728, 3)] ∧
    exampleList.Height = 1 ∧
    List.Chain heightStep (0, 0, exampleList.Height)
      (SkipList.newNodeSeq exampleProbabilities 1 exampleList
        [(2 ^ 31, [1], [2], 0), (2 ^ 29, [3], [4, 5], 1), (2 ^ 30, [6], [], 7)]) :=
  ⟨by rfl,
    (Height_invariant (NewArena 2000) exampleList exampleList.arena exampleProbabilities 1
      (by decide) rfl [(2 ^ 31, [1], [2], 0), (2 ^ 29, [3], [4, 5], 1), (2 ^ 30, [6], [], 7)]).1,
    (Height_invariant (NewArena 2000) exampleList exampleList.arena exampleProbabilities 1
      (by decide) rfl [(2 ^ 31, [1], [2], 0), (2 ^ 29, [3], [4, 5], 1), (2 ^ 30, [6], [], 7)]).2.1⟩

/-! ## Search on one level -/

/-- The result of `bytesCompare` is `0` exactly on equal keys. -/
theorem bytesCompare_eq_zero (a b : List Nat) : bytesCompare a b = 0 ↔ a = b := by
  induction a generalizing b with
  | nil => cases b <;> simp [bytesCompare]
  | cons x xs ih =>
    cases b with
    | nil => simp [bytesCompare]
    | cons y ys =>
      unfold bytesCompare
      by_cases h1 : x < y
      · rw [if_pos h1]
        simp
        omega
      · rw [if_neg h1]
        by_cases h2 : y < x
        · rw [if_pos h2]
          simp
          omega
        · rw [if_neg h2, ih ys]
          have : x = y := by omega
          simp [this]

/-- Swapping the arguments of `bytesCompare` negates the result. -/
theorem bytesCompare_swap (a b : List Nat) : bytesCompare b a = - bytesCompare a b := by
  induction a generalizing b with
  | nil => cases b <;> simp [bytesCompare]
  | cons x xs ih =>
    cases b with
    | nil => simp [bytesCompare]
    | cons y ys =>
      unfold bytesCompare
      by_cases h1 : x < y
      · have h2 : ¬ y < x := by omega
        simp [h1, h2]
      · by_cases h2 : y < x
        · simp [h1, h2]
        · simp only [if_neg h1, if_neg h2]
          exact ih ys

/-- The order on keys is transitive. -/
theorem keyLt_trans (a b c : List Nat) (h1 : keyLt a b) (h2 : keyLt b c) : keyLt a c := by
  unfold keyLt at *
  induction a generalizing b c with
  | nil =>
    cases c with
    | nil => cases b <;> simp [bytesCompare] at h1 h2
    | cons z zs => simp [bytesCompare]
  | cons x xs ih =>
    cases b with
    | nil => simp [bytesCompare] at h1
    | cons y ys =>
      cases c with
      | nil => simp [bytesCompare] at h2
      | cons z zs =>
        unfold bytesCompare at h1 h2 ⊢
        by_cases hxy : x < y
        · by_cases hyz : y < z
          · rw [if_pos (by omega)]; decide
          · rw [if_neg hyz] at h2
            by_cases hzy : z < y
            · rw [if_pos hzy] at h2; exact absurd h2 (by decide)
            · rw [if_pos (by omega)]; decide
        · rw [if_neg hxy] at h1
          by_cases hyx : y < x
          · rw [if_pos hyx] at h1; exact absurd h1 (by decide)
          · rw [if_neg hyx] at h1
            have hxy' : x = y := by omega
            subst hxy'
            by_cases hyz : x < z
            · rw [if_pos hyz]; decide
            · rw [if_neg hyz] at h2 ⊢
              by_cases hzy : z < x
              · rw [if_pos hzy] at h2; exact absurd h2 (by decide)
              · rw [if_neg hzy] at h2 ⊢
                exact ih ys zs h1 h2

/-- No key is below itself. -/
theorem keyLt_irrefl (a : List Nat) : ¬ keyLt a a := by
  unfold keyLt
  rw [(bytesCompare_eq_zero a a).2 rfl]
  decide

/-- When `bytesCompare a b` is neither `0` nor negative, `b` is below `a`. -/
theorem keyLt_of_gt (a b : List Nat) (h0 : ¬ bytesCompare a b = 0) (h1 : ¬ bytesCompare a b < 0) :
    keyLt b a := by
  unfold keyLt
  rw [bytesCompare_swap a b]
  omega

/-- The tail of an increasing list of keys is increasing. -/
theorem keysIncreasing_tail (k : List Nat) (ks : List (List Nat)) (h : keysIncreasing (k :: ks)) :
    keysIncreasing ks := by
  cases ks with
  | nil => trivial
  | cons k2 rest => exact h.2

/-- The first key of an increasing list is below all the others. -/
theorem keysIncreasing_head_lt (k : List Nat) (ks : List (List Nat))
    (h : keysIncreasing (k :: ks)) : ∀ k2 ∈ ks, keyLt k k2 := by
  induction ks generalizing k with
  | nil => intro k2 hk2; cases hk2
  | cons k1 rest ih =>
    intro k2 hk2
    rcases List.mem_cons.1 hk2 with rfl | hmem
    · exact h.1
    · exact keyLt_trans k k1 k2 h.1 (ih k1 h.2 k2 hmem)

/-- The loop of `findSpliceForLevel` on a chain: the chain splits into the nodes passed, all below `key`, and the rest, at whose first node the loop stops. -/
theorem findSplice_loop_spec (s : SkipList) (key : List Nat) (level : Nat) :
    ∀ (chain : List (Nat × List Nat)) (prev fuel : Nat),
      s.IsChain level prev chain → chain.length < fuel →
      ∃ pre post found, chain = pre ++ post ∧ (∀ p ∈ pre, keyLt p.2 key) ∧
        SkipList.findSpliceForLevel.loop s key level fuel prev
          = Res.ok (lastNode prev pre, firstNode s.tail post, found) s ∧
        s.getNext (lastNode prev pre) level = Res.ok (firstNode s.tail post) s ∧
        (match post with
          | [] => found = false
          | (_, k) :: _ => (found = true ∧ bytesCompare key k = 0) ∨
              (found = false ∧ keyLt key k)) := by
  intro chain
  induction chain with
  | nil =>
    intro prev fuel hc hf
    obtain ⟨f, rfl⟩ : ∃ f, fuel = f + 1 := ⟨fuel - 1, by simp at hf; omega⟩
    obtain ⟨hnext, hkey⟩ := hc
    refine ⟨[], [], false, rfl, (fun p hp => absurd hp (List.not_mem_nil p)), ?_, hnext, rfl⟩
    unfold SkipList.findSpliceForLevel.loop
    rw [hnext]
    dsimp only
    rw [hkey]
    rfl
  | cons c rest ih =>
    intro prev fuel hc hf
    obtain ⟨nd, k⟩ := c
    obtain ⟨f, rfl⟩ : ∃ f, fuel = f + 1 := ⟨fuel - 1, by simp at hf; omega⟩
    obtain ⟨hnext, hkey, hrest⟩ := hc
    unfold SkipList.findSpliceForLevel.loop
    rw [hnext]
    dsimp only
    rw [hkey]
    dsimp only
    by_cases h0 : bytesCompare key k = 0
    · rw [if_pos h0]
      exact ⟨[], (nd, k) :: rest, true, rfl, (fun p hp => absurd hp (List.not_mem_nil p)), rfl, hnext,
        Or.inl ⟨rfl, h0⟩⟩
    · rw [if_neg h0]
      by_cases h1 : bytesCompare key k < 0
      · rw [if_pos h1]
        exact ⟨[], (nd, k) :: rest, false, rfl, (fun p hp => absurd hp (List.not_mem_nil p)), rfl, hnext,
          Or.inr ⟨rfl, h1⟩⟩
      · rw [if_neg h1]
        obtain ⟨pre, post, found, hsplit, hpre, hloop, hlink, hpost⟩ :=
          ih nd f hrest (by simp at hf; omega)
        refine ⟨(nd, k) :: pre, post, found, by rw [hsplit]; rfl, ?_, hloop, hlink, hpost⟩
        intro p hp
        rcases List.mem_cons.1 hp with rfl | hmem
        · exact keyLt_of_gt key k h0 h1
        · exact hpre p hmem

/-- The right part of an increasing list of keys is increasing. -/
theorem keysIncreasing_append_right (pre post : List (List Nat))
    (h : keysIncreasing (pre ++ post)) : keysIncreasing post := by
  induction pre with
  | nil => exact h
  | cons c rest ih => exact ih (keysIncreasing_tail _ _ h)

/-- A key above the left part and below the first key of the right part can be put between them. -/
theorem keysIncreasing_insert (key : List Nat) (post : List (List Nat)) :
    ∀ (pre : List (List Nat)), keysIncreasing (pre ++ post) → (∀ k ∈ pre, keyLt k key) →
      (∀ k2 rest, post = k2 :: rest → keyLt key k2) → keysIncreasing (pre ++ key :: post) := by
  intro pre
  induction pre with
  | nil =>
    intro h _ hpost
    cases post with
    | nil => trivial
    | cons k2 rest => exact ⟨hpost k2 rest rfl, h⟩
  | cons p pre1 ih =>
    intro h hpre hpost
    have hrest := ih (keysIncreasing_tail p (pre1 ++ post) h)
      (fun k hk => hpre k (List.mem_cons_of_mem p hk)) hpost
    cases pre1 with
    | nil => exact ⟨hpre p (List.mem_cons_self p []), hrest⟩
    | cons p2 pre2 => exact ⟨h.1, hrest⟩

/-- Every node of a chain stores the key listed with it. -/
theorem IsChain_getKey (s : SkipList) (level : Nat) :
    ∀ (chain : List (Nat × List Nat)) (prev : Nat), s.IsChain level prev chain →
      ∀ p ∈ chain, node.getKey p.1 s.arena = Res.ok (some p.2) s.arena := by
  intro chain
  induction chain with
  | nil => intro prev _ p hp; cases hp
  | cons c rest ih =>
    intro prev hc p hp
    obtain ⟨nd, k⟩ := c
    obtain ⟨_, hkey, hrest⟩ := hc
    rcases List.mem_cons.1 hp with rfl | hmem
    · exact hkey
    · exact ih nd hrest p hmem

/-- The last node of a non-empty list is in the list. -/
theorem lastNode_mem (start : Nat) :
    ∀ (pre : List (Nat × List Nat)), pre ≠ [] → ∃ k, (lastNode start pre, k) ∈ pre := by
  intro pre
  induction pre generalizing start with
  | nil => intro h; exact absurd rfl h
  | cons c rest ih =>
    intro _
    obtain ⟨nd, k⟩ := c
    cases rest with
    | nil => exact ⟨k, List.mem_cons_self _ _⟩
    | cons c2 rest2 =>
      obtain ⟨k2, hk2⟩ := ih nd (by simp)
      exact ⟨k2, List.mem_cons_of_mem _ hk2⟩

/-- C4: postcondition of `findSpliceForLevel`.  Let the level-`level` next-chain from
`start` run through the nodes of `chain`, with strictly increasing keys, to the
tail sentinel, and let `start` be the head or store a key below `key`.  With a loop
budget above the length of the chain the call returns `(prev, next, found)` and
leaves the list as it is; `next` is the level-`level` successor of `prev`; `prev`
is `start` or a node of the chain with a key below `key` (so it is the head or
stores a key below `key`); and either `next` is the tail and `found = false`, or
`next` is a node of the chain with `key` equal to its key and `found = true`, or
`key` is below the key of `next` and `found = false`.  The chain splits at
`prev`/`next`, and when `found = false` the keys with `key` put between them are
still strictly increasing. -/
theorem findSpliceForLevel_post (s : SkipList) (key : List Nat) (level start : Nat)
    (chain : List (Nat × List Nat)) (fuel : Nat)
    (hchain : s.IsChain level start chain)
    (hsorted : keysIncreasing (chain.map Prod.snd))
    (hstart : s.Below start key)
    (hfuel : chain.length < fuel) :
    ∃ prev next found pre post,
      s.findSpliceForLevel fuel key level start = Res.ok (prev, next, found) s ∧
      s.getNext prev level = Res.ok next s ∧
      chain = pre ++ post ∧ prev = lastNode start pre ∧ next = firstNode s.tail post ∧
      (prev = start ∨ ∃ k, (prev, k) ∈ chain ∧ keyLt k key) ∧
      s.Below prev key ∧
      ((next = s.tail ∧ post = [] ∧ found = false) ∨
        (∃ k, (next, k) ∈ chain ∧ key = k ∧ found = true) ∨
        (∃ k, (next, k) ∈ chain ∧ keyLt key k ∧ found = false)) ∧
      (found = false → keysIncreasing (pre.map Prod.snd ++ key :: post.map Prod.snd)) := by
  obtain ⟨pre, post, found, hsplit, hpre, hloop, hlink, hpost⟩ :=
    findSplice_loop_spec s key level chain start fuel hchain hfuel
  have hprev : lastNode start pre = start ∨ ∃ k, (lastNode start pre, k) ∈ chain ∧ keyLt k key := by
    by_cases hnil : pre = []
    · left; rw [hnil]; rfl
    · right
      obtain ⟨k, hk⟩ := lastNode_mem start pre hnil
      exact ⟨k, by rw [hsplit]; exact List.mem_append_left _ hk, hpre _ hk⟩
  refine ⟨lastNode start pre, firstNode s.tail post, found, pre, post, hloop, hlink, hsplit,
    rfl, rfl, hprev, ?_, ?_, ?_⟩
  · rcases hprev with he | ⟨k, hk, hlt⟩
    · rw [he]; exact hstart
    · exact Or.inr ⟨k, IsChain_getKey s level chain start hchain _ hk, hlt⟩
  · cases post with
    | nil => exact Or.inl ⟨rfl, rfl, hpost⟩
    | cons c rest =>
      obtain ⟨nd, k⟩ := c
      have hmem : (nd, k) ∈ chain := by
        rw [hsplit]; exact List.mem_append_right _ (List.mem_cons_self _ _)
      rcases hpost with ⟨hf, h0⟩ | ⟨hf, hlt⟩
      · exact Or.inr (Or.inl ⟨k, hmem, (bytesCompare_eq_zero key k).1 h0, hf⟩)
      · exact Or.inr (Or.inr ⟨k, hmem, hlt, hf⟩)
  · intro hf
    rw [hsplit, List.map_append] at hsorted
    refine keysIncreasing_insert key (post.map Prod.snd) (pre.map Prod.snd) hsorted ?_ ?_
    · intro k hk
      obtain ⟨p, hp, rfl⟩ := List.mem_map.1 hk
      exact hpre p hp
    · intro k2 rest hpk
      cases post with
      | nil => cases hpk
      | cons c rest2 =>
        obtain ⟨nd, k⟩ := c
        simp only [List.map_cons, List.cons.injEq] at hpk
        rcases hpost with ⟨hf2, _⟩ | ⟨_, hlt⟩
        · rw [hf] at hf2; cases hf2
        · rw [← hpk.1]; exact hlt

/-- C5: `findSpliceForLevel` finds exactly the keys that are present.  For a
level-`level` next-chain from `start` through the nodes of `chain`, with strictly
increasing keys, to the tail sentinel, and a loop budget above the length of the
chain, the call returns `(prev, next, found)` where `found = true` if and only if
some node of the chain stores a key byte-wise equal to `key`; in that case `next`
is a node of the chain storing `key`, and every node of the chain that stores
`key` is `next`. -/
theorem findSpliceForLevel_found_iff (s : SkipList) (key : List Nat) (level start : Nat)
    (chain : List (Nat × List Nat)) (fuel : Nat)
    (hchain : s.IsChain level start chain)
    (hsorted : keysIncreasing (chain.map Prod.snd))
    (hfuel : chain.length < fuel) :
    ∃ prev next found,
      s.findSpliceForLevel fuel key level start = Res.ok (prev, next, found) s ∧
      (found = true ↔ ∃ nd k, (nd, k) ∈ chain ∧ bytesCompare key k = 0) ∧
      (found = true → (∃ k, (next, k) ∈ chain ∧ bytesCompare key k = 0) ∧
        ∀ nd k, (nd, k) ∈ chain → bytesCompare key k = 0 → nd = next) := by
  obtain ⟨pre, post, found, hsplit, hpre, hloop, _, hpost⟩ :=
    findSplice_loop_spec s key level chain start fuel hchain hfuel
  have hnotpre : ∀ nd k, (nd, k) ∈ pre → bytesCompare key k = 0 → False := by
    intro nd k hmem h0
    have hlt := hpre (nd, k) hmem
    rw [(bytesCompare_eq_zero key k).1 h0] at hlt
    exact keyLt_irrefl k hlt
  have hpostsorted : keysIncreasing (post.map Prod.snd) := by
    rw [hsplit, List.map_append] at hsorted
    exact keysIncreasing_append_right _ _ hsorted
  refine ⟨lastNode start pre, firstNode s.tail post, found, hloop, ?_, ?_⟩
  · constructor
    · intro hf
      cases post with
      | nil => rw [hf] at hpost; cases hpost
      | cons c rest =>
        obtain ⟨nd, k⟩ := c
        rcases hpost with ⟨_, h0⟩ | ⟨hf2, _⟩
        · exact ⟨nd, k, by rw [hsplit]; exact List.mem_append_right _ (List.mem_cons_self _ _), h0⟩
        · rw [hf] at hf2; cases hf2
    · rintro ⟨nd, k, hmem, h0⟩
      rw [hsplit] at hmem
      rcases List.mem_append.1 hmem with hin | hin
      · exact absurd h0 (fun h => hnotpre nd k hin h)
      · cases post with
        | nil => cases hin
        | cons c rest =>
          obtain ⟨nd1, k1⟩ := c
          rcases hpost with ⟨hf, _⟩ | ⟨_, hlt⟩
          · exact hf
          · exfalso
            have hk : key = k := (bytesCompare_eq_zero key k).1 h0
            rcases List.mem_cons.1 hin with heq | hrest
            · injection heq with _ hk1
              rw [hk, hk1] at hlt
              exact keyLt_irrefl k1 hlt
            · have hk1 : keyLt k1 k :=
                keysIncreasing_head_lt k1 (rest.map Prod.snd) hpostsorted k
                  (List.mem_map.2 ⟨(nd, k), hrest, rfl⟩)
              rw [hk] at hlt
              exact keyLt_irrefl k (keyLt_trans k k1 k hlt hk1)
  · intro hf
    cases post with
    | nil => rw [hf] at hpost; cases hpost
    | cons c rest =>
      obtain ⟨nd1, k1⟩ := c
      rcases hpost with ⟨_, h1⟩ | ⟨hf2, _⟩
      · refine ⟨⟨k1, by rw [hsplit]; exact List.mem_append_right _ (List.mem_cons_self _ _), h1⟩, ?_⟩
        intro nd k hmem h0
        rw [hsplit] at hmem
        rcases List.mem_append.1 hmem with hin | hin
        · exact absurd h0 (fun h => hnotpre nd k hin h)
        · rcases List.mem_cons.1 hin with heq | hrest
          · exact (Prod.mk.inj heq).1
          · exfalso
            have hk1 : keyLt k1 k :=
              keysIncreasing_head_lt k1 (rest.map Prod.snd) hpostsorted k
                (List.mem_map.2 ⟨(nd, k), hrest, rfl⟩)
            rw [← (bytesCompare_eq_zero key k).1 h0, ← (bytesCompare_eq_zero key k1).1 h1] at hk1
            exact keyLt_irrefl key hk1
      · rw [hf] at hf2; cases hf2

/-- The level-0 chain of `exampleChain` from the head: the nodes at `360` and `544`. -/
theorem exampleChain_isChain : exampleChain.IsChain 0 8 [(360, [10]), (544, [20])] :=
  ⟨rfl, rfl, rfl, rfl, rfl, rfl⟩

/-- Witness of C4 on `exampleChain`: the key `[15]` falls between the nodes at `360`
and `544`. -/
theorem findSpliceForLevel_post_witness :
    exampleChain.findSpliceForLevel 3 [15] 0 8 = Res.ok (360, 544, false) exampleChain ∧
    exampleChain.IsChain 0 8 [(360, [10]), (544, [20])] ∧
    ∃ prev next found pre post,
      exampleChain.findSpliceForLevel 3 [15] 0 8 = Res.ok (prev, next, found) exampleChain ∧
      exampleChain.getNext prev 0 = Res.ok next exampleChain ∧
      [(360, [10]), (544, [20])] = pre ++ post ∧ prev = lastNode 8 pre ∧
      next = firstNode exampleChain.tail post ∧
      (prev = 8 ∨ ∃ k, (prev, k) ∈ [(360, [10]), (544, [20])] ∧ keyLt k [15]) ∧
      exampleChain.Below prev [15] ∧
      ((next = exampleChain.tail ∧ post = [] ∧ found = false) ∨
        (∃ k, (next, k) ∈ [(360, [10]), (544, [20])] ∧ [15] = k ∧ found = true) ∨
        (∃ k, (next, k) ∈ [(360, [10]), (544, [20])] ∧ keyLt [15] k ∧ found = false)) ∧
      (found = false → keysIncreasing (pre.map Prod.snd ++ [15] :: post.map Prod.snd)) :=
  ⟨rfl, exampleChain_isChain,
    findSpliceForLevel_post exampleChain [15] 0 8 [(360, [10]), (544, [20])] 3
      exampleChain_isChain ⟨by decide, trivial⟩ (Or.inl rfl) (by decide)⟩

/-- Witness of C5 on `exampleChain`: the key `[20]` is found at the node at `544`,
the key `[25]` is not found. -/
theorem findSpliceForLevel_found_iff_witness :
    exampleChain.findSpliceForLevel 3 [20] 0 8 = Res.ok (360, 544, true) exampleChain ∧
    exampleChain.findSpliceForLevel 3 [25] 0 8 = Res.ok (544, 184, false) exampleChain ∧
    ∃ prev next found,
      exampleChain.findSpliceForLevel 3 [20] 0 8 = Res.ok (prev, next, found) exampleChain ∧
      (found = true ↔ ∃ nd k, (nd, k) ∈ [(360, [10]), (544, [20])] ∧ bytesCompare [20] k = 0) ∧
      (found = true → (∃ k, (next, k) ∈ [(360, [10]), (544, [20])] ∧ bytesCompare [20] k = 0) ∧
        ∀ nd k, (nd, k) ∈ [(360, [10]), (544, [20])] → bytesCompare [20] k = 0 → nd = next) :=
  ⟨rfl, rfl,
    findSpliceForLevel_found_iff exampleChain [20] 0 8 [(360, [10]), (544, [20])] 3
      exampleChain_isChain ⟨by decide, trivial⟩ (by decide)⟩

/-! ## Panics, errors and stored bytes -/

/-- The call `Alloc` changes the cursor only: bytes and node records stay. -/
theorem Alloc_mem (a : Arena) (size overflow : Nat) (align : Align) :
    (a.Alloc size overflow align).2.buf = a.buf ∧
      (a.Alloc size overflow align).2.nodes = a.nodes := by
  unfold Arena.Alloc
  split
  · exact ⟨rfl, rfl⟩
  · dsimp only
    split <;> exact ⟨rfl, rfl⟩

/-- C11: node-level `newNode` panics if and only if `height < 1` or
`height > maxHeight`, and then the panic is raised on the arena as it was given,
before any call of `Alloc`; for a height in `[1, maxHeight]` it returns, with the
error of `Alloc` and a nil node when `Alloc` returns an error, and with no error
and the offset issued by `Alloc` as the node when `Alloc` returns none. -/
theorem newNode_panic_iff (arena : Arena) (height : Nat) :
    ((∃ msg a, newNode arena height = Res.panic msg a) ↔ (height < 1 ∨ height > maxHeight)) ∧
    (height < 1 ∨ height > maxHeight →
      newNode arena height =
        Res.panic "height cannot be less than one or greater than the max height" arena) ∧
    (1 ≤ height ∧ height ≤ maxHeight →
      (∀ err, (arena.Alloc (baseSize + height * linksSize) ((maxHeight - height) * linksSize)
            Align8).1.2 = some err →
          newNode arena height = Res.ok (0, some err)
            (arena.Alloc (baseSize + height * linksSize) ((maxHeight - height) * linksSize)
              Align8).2) ∧
      ((arena.Alloc (baseSize + height * linksSize) ((maxHeight - height) * linksSize)
            Align8).1.2 = none →
          newNode arena height = Res.ok
            ((arena.Alloc (baseSize + height * linksSize) ((maxHeight - height) * linksSize)
              Align8).1.1, none)
            (arena.Alloc (baseSize + height * linksSize) ((maxHeight - height) * linksSize)
              Align8).2)) := by
  have hpanic : height < 1 ∨ height > maxHeight →
      newNode arena height =
        Res.panic "height cannot be less than one or greater than the max height" arena := by
    intro h
    unfold newNode
    rw [if_pos h]
  have hok : 1 ≤ height ∧ height ≤ maxHeight →
      (∀ err, (arena.Alloc (baseSize + height * linksSize) ((maxHeight - height) * linksSize)
            Align8).1.2 = some err →
          newNode arena height = Res.ok (0, some err)
            (arena.Alloc (baseSize + height * linksSize) ((maxHeight - height) * linksSize)
              Align8).2) ∧
      ((arena.Alloc (baseSize + height * linksSize) ((maxHeight - height) * linksSize)
            Align8).1.2 = none →
          newNode arena height = Res.ok
            ((arena.Alloc (baseSize + height * linksSize) ((maxHeight - height) * linksSize)
              Align8).1.1, none)
            (arena.Alloc (baseSize + height * linksSize) ((maxHeight - height) * linksSize)
              Align8).2) := by
    rintro ⟨h1, h20⟩
    have hargs := newNode_args height h1 h20
    constructor
    · intro err herr
      unfold newNode
      rw [if_neg (by omega)]
      dsimp only
      rw [hargs.1, hargs.2, herr]
    · intro hnone
      unfold newNode
      rw [if_neg (by omega)]
      dsimp only
      rw [hargs.1, hargs.2, hnone]
      rfl
  refine ⟨⟨?_, fun h => ⟨_, _, hpanic h⟩⟩, hpanic, hok⟩
  rintro ⟨msg, a, hres⟩
  by_contra hin
  have hrange : 1 ≤ height ∧ height ≤ maxHeight := by omega
  obtain ⟨r, a1, hr⟩ := newNode_ok_of_range arena height hrange.1 hrange.2
  rw [hr] at hres
  exact Res.noConfusion hres

/-- Witness of C11: heights `0` and `21` panic on the arena as given, and height
`1` on a fresh arena of `100` bytes returns the error of `Alloc` with a nil node. -/
theorem newNode_panic_iff_witness :
    newNode (NewArena 1000) 0 =
      Res.panic "height cannot be less than one or greater than the max height" (NewArena 1000) ∧
    newNode (NewArena 1000) 21 =
      Res.panic "height cannot be less than one or greater than the max height" (NewArena 1000) ∧
    newNode (NewArena 100) 1 = Res.ok (0, some Error.ErrArenaFull)
      ((NewArena 100).Alloc (baseSize + 1 * linksSize) ((maxHeight - 1) * linksSize) Align8).2 :=
  ⟨(newNode_panic_iff (NewArena 1000) 0).2.1 (Or.inl (by decide)),
    (newNode_panic_iff (NewArena 1000) 21).2.1 (Or.inr (by decide)),
    ((newNode_panic_iff (NewArena 100) 1).2.2 ⟨by decide, by decide⟩).1 Error.ErrArenaFull
      (by decide)⟩

/-- C13: `allocVal` panics if and only if `len(val) > 2^16-1`, with the message
"val is too large" and on the list as it was given, before any call of `Alloc`; for
a value of at most `2^16-1` bytes it returns, and when `Alloc` returns an error it
returns that error, the word `0`, and a list whose arena bytes are as before. -/
theorem allocVal_panic_iff (s : SkipList) (val : List Nat) (meta : Nat) :
    ((∃ msg s1, s.allocVal val meta = Res.panic msg s1) ↔ val.length > MaxUint16) ∧
    (val.length > MaxUint16 → s.allocVal val meta = Res.panic "val is too large" s) ∧
    (val.length ≤ MaxUint16 →
      (∀ err, (s.arena.Alloc val.length 0 Align1).1.2 = some err →
        s.allocVal val meta =
          Res.ok (0, some err) { s with arena := (s.arena.Alloc val.length 0 Align1).2 } ∧
        (s.arena.Alloc val.length 0 Align1).2.buf = s.arena.buf) ∧
      ((s.arena.Alloc val.length 0 Align1).1.2 = none →
        s.allocVal val meta =
          Res.ok (encodeValue (s.arena.Alloc val.length 0 Align1).1.1 val.length meta, none)
            { s with arena := ((s.arena.Alloc val.length 0 Align1).2.copyInto
                (s.arena.Alloc val.length 0 Align1).1.1 val.length val) })) := by
  have hpanic : val.length > MaxUint16 → s.allocVal val meta = Res.panic "val is too large" s := by
    intro h
    unfold SkipList.allocVal
    rw [if_pos h]
  have hmod : val.length ≤ MaxUint16 → val.length % 2 ^ 16 % 2 ^ 32 = val.length ∧
      val.length % 2 ^ 16 = val.length := by
    intro h
    unfold MaxUint16 at h
    omega
  refine ⟨⟨?_, fun h => ⟨_, _, hpanic h⟩⟩, hpanic, ?_⟩
  · rintro ⟨msg, s1, hres⟩
    by_contra hle
    rcases allocVal_cases s val meta with hp | ⟨w, e, a, hok⟩
    · unfold SkipList.allocVal at hp
      rw [if_neg hle] at hp
      dsimp only at hp
      split at hp <;> exact Res.noConfusion hp
    · rw [hok] at hres
      exact Res.noConfusion hres
  · intro hle
    obtain ⟨hm1, hm2⟩ := hmod hle
    constructor
    · intro err herr
      refine ⟨?_, (Alloc_mem s.arena val.length 0 Align1).1⟩
      unfold SkipList.allocVal
      rw [if_neg (by omega)]
      dsimp only
      rw [hm1, herr]
    · intro hnone
      unfold SkipList.allocVal
      rw [if_neg (by omega)]
      dsimp only
      rw [hm1, hm2, hnone]

/-- C12 (the code at the failing input): `allocKey` never panics, whatever the
length of the key; for a key of `2^32` bytes on `exampleList` it returns without
error the offset `360` and the truncated size `0`, and the cursor of the arena
stays at `360`. -/
theorem allocKey_truncates :
    (∀ (s : SkipList) (key : List Nat) (msg : String) (s1 : SkipList),
      s.allocKey key ≠ Res.panic msg s1) ∧
    (List.replicate (2 ^ 32) 0).length > MaxUint32 ∧
    ∃ s1, exampleList.allocKey (List.replicate (2 ^ 32) 0) = Res.ok (360, 0, none) s1 ∧
      s1.arena.n = 360 := by
  refine ⟨?_, ?_, ?_⟩
  · intro s key msg s1 h
    obtain ⟨ko, ks, err, a, hk⟩ := allocKey_ok s key
    rw [hk] at h
    exact Res.noConfusion h
  · rw [List.length_replicate]
    decide
  · have hlen : (List.replicate (2 ^ 32) 0).length % 2 ^ 32 = 0 := by
      rw [List.length_replicate]
      exact Nat.mod_self _
    have halloc : exampleList.arena.Alloc 0 0 Align1 = ((360, none), exampleList.arena) := by
      rfl
    unfold SkipList.allocKey
    dsimp only
    rw [hlen, if_neg (by decide), halloc]
    exact ⟨_, rfl, rfl⟩

/-- Witness of C13 on `exampleSmall`: a value of `65536` bytes panics on the list as
given, and a value of `200` bytes, for which there is no room, returns the word `0`
with `ErrArenaFull`. -/
theorem allocVal_panic_iff_witness :
    exampleSmall.allocVal (List.replicate 65536 0) 5 = Res.panic "val is too large" exampleSmall ∧
    exampleSmall.allocVal (List.replicate 200 1) 5 =
      Res.ok (0, some Error.ErrArenaFull)
        { exampleSmall with
          arena := (exampleSmall.arena.Alloc (List.replicate 200 1).length 0 Align1).2 } :=
  ⟨(allocVal_panic_iff exampleSmall (List.replicate 65536 0) 5).2.1
      (by rw [List.length_replicate]; decide),
    (((allocVal_panic_iff exampleSmall (List.replicate 200 1) 5).2.2
      (by rw [List.length_replicate]; decide)).1 Error.ErrArenaFull
      (by rw [List.length_replicate]; rfl)).1⟩

/-- When the drawn height is above the loaded `listHeight` and the word `s.height`
holds another value, every iteration of the loop fails its CAS and leaves the loop
condition as it was: no budget is enough. -/
theorem raise_stale (height listHeight cur : Nat) (hgt : height > listHeight)
    (hne : cur ≠ listHeight) (fuel : Nat) :
    SkipList.newNode.raise height listHeight fuel cur = none := by
  induction fuel with
  | zero => rfl
  | succ f ih =>
    unfold SkipList.newNode.raise CompareAndSwapUint32
    rw [if_pos hgt, if_neg hne]
    exact ih

/-- C15 (the code at the failing input): drawn height `3`, loaded `listHeight = 1`,
and `s.height = 2` when the CAS is attempted, or `s.height = 5`, already raised
above the drawn height.  The CAS fails, `listHeight` is not loaded again, and the
loop does not end within any number of iterations. -/
theorem raise_never_ends :
    ∀ fuel : Nat, SkipList.newNode.raise 3 1 fuel 2 = none ∧
      SkipList.newNode.raise 3 1 fuel 5 = none :=
  fun fuel => ⟨raise_stale 3 1 2 (by decide) (by decide) fuel,
    raise_stale 3 1 5 (by decide) (by decide) fuel⟩

/-- The loop of `randomHeight` from `h` stops at the first level from `h` on whose
threshold is below the draw, or at `maxHeight`. -/
theorem randomHeight_loop_least (probabilities : Fin maxHeight → Nat) (rnd : Nat) :
    ∀ (fuel h : Nat), maxHeight - h < fuel → h ≤ maxHeight →
      ∃ r, SkipList.randomHeight.loop probabilities rnd fuel h = some r ∧ h ≤ r ∧
        r ≤ maxHeight ∧
        (∀ j (hj : j < maxHeight), h ≤ j → j < r → rnd ≤ probabilities ⟨j, hj⟩) ∧
        (∀ hr : r < maxHeight, probabilities ⟨r, hr⟩ < rnd) := by
  intro fuel
  induction fuel with
  | zero => intro h hf _; omega
  | succ fuel ih =>
    intro h hf hle
    unfold SkipList.randomHeight.loop
    by_cases hlt : h < maxHeight
    · rw [dif_pos hlt]
      by_cases hr : rnd ≤ probabilities ⟨h, hlt⟩
      · rw [if_pos hr]
        obtain ⟨r, hr1, hr2, hr3, hr4, hr5⟩ := ih (h + 1) (by omega) (by omega)
        refine ⟨r, hr1, by omega, hr3, ?_, hr5⟩
        intro j hj hhj hjr
        by_cases he : j = h
        · subst he; exact hr
        · exact hr4 j hj (by omega) hjr
      · rw [if_neg hr]
        exact ⟨h, rfl, le_refl h, hle, fun j _ h1 h2 => absurd h1 (by omega),
          fun _ => by omega⟩
    · rw [dif_neg hlt]
      exact ⟨h, rfl, le_refl h, hle, fun j _ h1 h2 => absurd h1 (by omega),
        fun hr => absurd hr hlt⟩

/-- C16: `randomHeight` as a function of the draw.  For every table and every draw
the result `h` is in `[1, maxHeight]`, the draw is at most the threshold of every
level `j` with `1 ≤ j < h`, and it is above the threshold of level `h` when
`h < maxHeight`: `h` is the least level in `1..19` whose threshold is below the
draw, or `20`.  For draws `rnd1 ≤ rnd2` the height of `rnd1` is at least the
height of `rnd2`. -/
theorem randomHeight_least (s : SkipList) (probabilities : Fin maxHeight → Nat)
    (rnd1 rnd2 : Nat) (hle : rnd1 ≤ rnd2) :
    ∃ h1 h2, s.randomHeight probabilities rnd1 = some h1 ∧
      s.randomHeight probabilities rnd2 = some h2 ∧ h2 ≤ h1 ∧
      (1 ≤ h1 ∧ h1 ≤ maxHeight ∧
        (∀ j (hj : j < maxHeight), 1 ≤ j → j < h1 → rnd1 ≤ probabilities ⟨j, hj⟩) ∧
        (∀ hr : h1 < maxHeight, probabilities ⟨h1, hr⟩ < rnd1)) ∧
      (1 ≤ h2 ∧ h2 ≤ maxHeight ∧
        (∀ j (hj : j < maxHeight), 1 ≤ j → j < h2 → rnd2 ≤ probabilities ⟨j, hj⟩) ∧
        (∀ hr : h2 < maxHeight, probabilities ⟨h2, hr⟩ < rnd2)) := by
  obtain ⟨h1, e1, a1, b1, c1, d1⟩ :=
    randomHeight_loop_least probabilities rnd1 maxHeight 1 (by decide) (by decide)
  obtain ⟨h2, e2, a2, b2, c2, d2⟩ :=
    randomHeight_loop_least probabilities rnd2 maxHeight 1 (by decide) (by decide)
  refine ⟨h1, h2, e1, e2, ?_, ⟨a1, b1, c1, d1⟩, ⟨a2, b2, c2, d2⟩⟩
  by_contra hlt
  have hh : h1 < maxHeight := by omega
  have hx := d1 hh
  have hy := c2 h1 hh a1 (by omega)
  omega

/-- Witness of C16 on the table `exampleProbabilities`: the draw `2^29` gives
height `3`, the larger draw `2^31` gives height `1`. -/
theorem randomHeight_least_witness :
    exampleList.randomHeight exampleProbabilities (2 ^ 29) = some 3 ∧
    exampleList.randomHeight exampleProbabilities (2 ^ 31) = some 1 ∧
    ∃ h1 h2, exampleList.randomHeight exampleProbabilities (2 ^ 29) = some h1 ∧
      exampleList.randomHeight exampleProbabilities (2 ^ 31) = some h2 ∧ h2 ≤ h1 :=
  ⟨by decide, by decide,
    (randomHeight_least exampleList exampleProbabilities (2 ^ 29) (2 ^ 31) (by decide)).imp
      fun _ h => h.imp fun _ h => ⟨h.1, h.2.1, h.2.2.1⟩⟩

/-- C18: bit layout of the value word.  For a 32-bit `valueOffset` and 16-bit
`valSize` and `meta`, `encodeValue` is `meta * 2^48 + valSize * 2^32 + valueOffset`,
a 64-bit word whose bits 0-31 are the value offset, bits 32-47 the value size and
bits 48-63 the metadata. -/
theorem encodeValue_layout (valueOffset valSize meta : Nat)
    (ho : valueOffset < 2 ^ 32) (hs : valSize < 2 ^ 16) (hm : meta < 2 ^ 16) :
    encodeValue valueOffset valSize meta = meta * 2 ^ 48 + valSize * 2 ^ 32 + valueOffset ∧
      encodeValue valueOffset valSize meta < 2 ^ 64 ∧
      encodeValue valueOffset valSize meta % 2 ^ 32 = valueOffset ∧
      encodeValue valueOffset valSize meta / 2 ^ 32 % 2 ^ 16 = valSize ∧
      encodeValue valueOffset valSize meta / 2 ^ 48 = meta ∧
      (∀ i, i < 32 → (encodeValue valueOffset valSize meta).testBit i = valueOffset.testBit i) ∧
      (∀ i, i < 16 →
        (encodeValue valueOffset valSize meta).testBit (32 + i) = valSize.testBit i) ∧
      (∀ i, i < 16 → (encodeValue valueOffset valSize meta).testBit (48 + i) = meta.testBit i) := by
  have e := encodeValue_eq_add valueOffset valSize meta ho hs hm
  have h1 : encodeValue valueOffset valSize meta % 2 ^ 32 = valueOffset := by rw [e]; omega
  have h2 : encodeValue valueOffset valSize meta / 2 ^ 32 % 2 ^ 16 = valSize := by rw [e]; omega
  have h3 : encodeValue valueOffset valSize meta / 2 ^ 48 = meta := by rw [e]; omega
  refine ⟨e, by rw [e]; omega, h1, h2, h3, ?_⟩
  clear e
  generalize encodeValue valueOffset valSize meta = w at h1 h2 h3 ⊢
  refine ⟨?_, ?_, ?_⟩
  · intro i hi
    rw [← h1, Nat.testBit_mod_two_pow]
    simp [hi]
  · intro i hi
    rw [← h2, Nat.testBit_mod_two_pow, ← Nat.shiftRight_eq_div_pow, Nat.testBit_shiftRight]
    simp [hi]
  · intro i _
    rw [← h3, ← Nat.shiftRight_eq_div_pow, Nat.testBit_shiftRight]

/-- Witness of C18 at offset `7`, size `3`, meta `5`. -/
theorem encodeValue_layout_witness :
    encodeValue 7 3 5 = 5 * 2 ^ 48 + 3 * 2 ^ 32 + 7 ∧ encodeValue 7 3 5 < 2 ^ 64 ∧
      encodeValue 7 3 5 % 2 ^ 32 = 7 ∧ encodeValue 7 3 5 / 2 ^ 32 % 2 ^ 16 = 3 ∧
      encodeValue 7 3 5 / 2 ^ 48 = 5 :=
  ⟨(encodeValue_layout 7 3 5 (by decide) (by decide) (by decide)).1,
    (encodeValue_layout 7 3 5 (by decide) (by decide) (by decide)).2.1,
    (encodeValue_layout 7 3 5 (by decide) (by decide) (by decide)).2.2.1,
    (encodeValue_layout 7 3 5 (by decide) (by decide) (by decide)).2.2.2.1,
    (encodeValue_layout 7 3 5 (by decide) (by decide) (by decide)).2.2.2.2.1⟩

/-- With alignment `Align1` the aligned offset is the cursor. -/
theorem alignUp_one (n : Nat) : alignUp n Align1 = n := by
  unfold alignUp Align.bytes
  simp

/-- After `copy(arena.GetBytes(offset, len(src)), src)` at an offset that is not the
reserved `0`, `GetBytes(offset, len(src))` is `src`. -/
theorem copyInto_GetBytes (a : Arena) (offset : Nat) (src : List Nat) (h0 : offset ≠ 0) :
    (a.copyInto offset src.length src).GetBytes offset src.length = some src := by
  unfold Arena.copyInto Arena.GetBytes
  rw [if_neg h0, if_neg h0]
  dsimp only
  congr 1
  apply List.ext_getElem
  · simp
  · intro i h1 h2
    simp only [List.getElem_map, List.getElem_range, Nat.min_self]
    rw [if_pos ⟨by omega, by omega⟩, Nat.add_sub_cancel_left]
    exact (List.getD_eq_getElem src 0 h2)

/-- C19: stored bytes read back.  On a list whose arena is well formed: when
`allocVal` succeeds with the word `w` for a value of at most `2^16-1` bytes and a
16-bit `meta`, `decodeValue w` is the offset issued by `Alloc` and `len(val)`,
`decodeMeta w` is `meta`, and `GetBytes` at that offset and length is `val`; when
`allocKey` succeeds for a key shorter than `2^32` bytes it returns the offset issued
by `Alloc` and `len(key)`, and `GetBytes` at that offset and length is `key`. -/
theorem alloc_reads_back (s : SkipList) (hv : s.arena.Valid) :
    (∀ (val : List Nat) (meta w : Nat) (s1 : SkipList), val.length ≤ MaxUint16 → meta < 2 ^ 16 →
      s.allocVal val meta = Res.ok (w, none) s1 →
      decodeValue w = ((s.arena.Alloc val.length 0 Align1).1.1, val.length) ∧
        decodeMeta w = meta ∧
        s1.arena.GetBytes (decodeValue w).1 (decodeValue w).2 = some val) ∧
    (∀ (key : List Nat) (keyOffset keySize : Nat) (s1 : SkipList), key.length < 2 ^ 32 →
      s.allocKey key = Res.ok (keyOffset, keySize, none) s1 →
      keyOffset = (s.arena.Alloc key.length 0 Align1).1.1 ∧ keySize = key.length ∧
        s1.arena.GetBytes keyOffset keySize = some key) := by
  obtain ⟨hpos, hcap⟩ := hv
  unfold MaxUint32 at hcap
  constructor
  · intro val meta w s1 hlen hmeta hres
    have hlen16 : val.length < 2 ^ 16 := by unfold MaxUint16 at hlen; omega
    have hm1 : val.length % 2 ^ 16 % 2 ^ 32 = val.length := by omega
    have hm2 : val.length % 2 ^ 16 = val.length := by omega
    unfold SkipList.allocVal at hres
    rw [if_neg (by omega)] at hres
    dsimp only at hres
    rw [hm1, hm2] at hres
    split at hres
    · injection hres with hval _
      injection hval with _ herr
      exact absurd herr (by simp)
    · rename_i hnone
      obtain ⟨hle, hoff, _, _⟩ := Alloc_success s.arena val.length 0 Align1 hnone
      rw [alignUp_one] at hoff
      injection hres with hval hst
      injection hval with hw _
      have hrt := decode_encodeValue (s.arena.Alloc val.length 0 Align1).1.1 val.length meta
        (by rw [hoff]; omega) hlen16 hmeta
      rw [hw] at hrt
      refine ⟨hrt.1, hrt.2, ?_⟩
      rw [hrt.1, ← hst]
      exact copyInto_GetBytes _ _ val (by rw [hoff]; omega)
  · intro key keyOffset keySize s1 hlen hres
    have hm : key.length % 2 ^ 32 = key.length := Nat.mod_eq_of_lt hlen
    unfold SkipList.allocKey at hres
    dsimp only at hres
    rw [hm, if_neg (by unfold MaxUint32; omega)] at hres
    split at hres
    · rename_i hnone
      obtain ⟨hle, hoff, _, _⟩ := Alloc_success s.arena key.length 0 Align1 hnone
      rw [alignUp_one] at hoff
      injection hres with hval hst
      injection hval with hko hrest
      injection hrest with hks _
      refine ⟨hko.symm, hks.symm, ?_⟩
      rw [← hst, ← hko, ← hks]
      exact copyInto_GetBytes _ _ key (by rw [hoff]; omega)
    · injection hres with hval _
      injection hval with _ hrest
      injection hrest with _ herr
      exact absurd herr (by simp)

/-- The arena of `exampleList` is well formed. -/
theorem exampleList_valid : exampleList.arena.Valid :=
  ⟨by decide, by decide⟩

/-- Witness of C19 on `exampleList`: the value `[4, 5]` with meta `9` and the key
`[1, 2, 3]` are stored at offset `360`, the cursor of the arena. -/
theorem alloc_reads_back_witness :
    (∃ w s1, exampleList.allocVal [4, 5] 9 = Res.ok (w, none) s1 ∧ decodeValue w = (360, 2) ∧
      decodeMeta w = 9 ∧ s1.arena.GetBytes 360 2 = some [4, 5]) ∧
    (∃ s1, exampleList.allocKey [1, 2, 3] = Res.ok (360, 3, none) s1 ∧
      s1.arena.GetBytes 360 3 = some [1, 2, 3]) :=
  ⟨⟨_, _, rfl,
      ((alloc_reads_back exampleList exampleList_valid).1 [4, 5] 9 _ _ (by decide) (by decide)
        rfl).1,
      ((alloc_reads_back exampleList exampleList_valid).1 [4, 5] 9 _ _ (by decide) (by decide)
        rfl).2.1,
      rfl⟩,
    ⟨_, rfl,
      ((alloc_reads_back exampleList exampleList_valid).2 [1, 2, 3] 360 3 _ (by decide)
        rfl).2.2⟩⟩

/-! ## The threshold table -/

set_option maxRecDepth 100000 in
/-- The constant `pValue` as a `float64`: `0x1.78b56362cef38p-2`. -/
theorem pValue_eq : pValue = { m := 6627126856707896, e := -54 } := by
  decide

set_option maxRecDepth 100000 in
/-- The entries of `probabilities`, by running `init`. -/
theorem probabilities_eq : ∀ i : Fin maxHeight, probabilities i = probabilitiesTable.getD i.val 0 := by
  decide

/-- Decimal bounds on `e`, from the bound of the library to 20 digits. -/
theorem exp_one_bounds : (2.71828182845904 : ℝ) < Real.exp 1 ∧ Real.exp 1 < 2.71828182845905 := by
  have h := abs_le.1 Real.exp_one_near_20
  constructor
  · have := h.1
    norm_num at this ⊢
    linarith
  · have := h.2
    norm_num at this ⊢
    linarith

/-- The integer part of `c * (1/e)^i` is `t` when `t * e^i ≤ c < (t + 1) * e^i` holds
with `e` replaced by its decimal bounds. -/
theorem floor_entry (c t i : ℕ) (h1 : (t : ℝ) * (2.71828182845905 : ℝ) ^ i ≤ c)
    (h2 : (c : ℝ) < ((t : ℝ) + 1) * (2.71828182845904 : ℝ) ^ i) :
    ⌊(c : ℝ) * (1 / Real.exp 1) ^ i⌋₊ = t := by
  obtain ⟨hlo, hhi⟩ := exp_one_bounds
  have he : (0 : ℝ) < Real.exp 1 := Real.exp_pos 1
  have hpow : (0 : ℝ) < Real.exp 1 ^ i := pow_pos he i
  have hup : Real.exp 1 ^ i ≤ (2.71828182845905 : ℝ) ^ i :=
    pow_le_pow_left₀ he.le hhi.le i
  have hdn : (2.71828182845904 : ℝ) ^ i ≤ Real.exp 1 ^ i :=
    pow_le_pow_left₀ (by norm_num) hlo.le i
  have hform : (c : ℝ) * (1 / Real.exp 1) ^ i = c / Real.exp 1 ^ i := by
    rw [one_div, inv_pow, div_eq_mul_inv]
  rw [hform, Nat.floor_eq_iff (by positivity)]
  constructor
  · rw [le_div_iff₀ hpow]
    calc (t : ℝ) * Real.exp 1 ^ i ≤ t * (2.71828182845905 : ℝ) ^ i :=
          mul_le_mul_of_nonneg_left hup (Nat.cast_nonneg t)
      _ ≤ c := h1
  · rw [div_lt_iff₀ hpow]
    calc (c : ℝ) < ((t : ℝ) + 1) * (2.71828182845904 : ℝ) ^ i := h2
      _ ≤ ((t : ℝ) + 1) * Real.exp 1 ^ i :=
          mul_le_mul_of_nonneg_left hdn (by positivity)

/-- C17 (counterexample): `init` stores `2^32 - 1` at level `0` and `28939261` at level
`5`, where `floor(2^32 * (1/e)^i)` is `2^32`, which does not fit in 32 bits, and
`28939262`. -/
theorem probabilities_not_spec :
    probabilities ⟨0, by decide⟩ = 4294967295 ∧
    ⌊(2 : ℝ) ^ 32 * (1 / Real.exp 1) ^ 0⌋₊ = 4294967296 ∧
    ¬ ⌊(2 : ℝ) ^ 32 * (1 / Real.exp 1) ^ 0⌋₊ < 2 ^ 32 ∧
    probabilities ⟨5, by decide⟩ = 28939261 ∧
    ⌊(2 : ℝ) ^ 32 * (1 / Real.exp 1) ^ 5⌋₊ = 28939262 ∧
    ¬ ∀ i : Fin maxHeight, probabilities i = ⌊(2 : ℝ) ^ 32 * (1 / Real.exp 1) ^ (i : ℕ)⌋₊ := by
  have h0 : ⌊(2 : ℝ) ^ 32 * (1 / Real.exp 1) ^ 0⌋₊ = 4294967296 := by
    have e : (2 : ℝ) ^ 32 * (1 / Real.exp 1) ^ 0 = ((4294967296 : ℕ) : ℝ) := by norm_num
    rw [e, Nat.floor_natCast]
  have h5 : ⌊(2 : ℝ) ^ 32 * (1 / Real.exp 1) ^ 5⌋₊ = 28939262 := by
    have e : (2 : ℝ) ^ 32 = ((4294967296 : ℕ) : ℝ) := by norm_num
    rw [e]
    exact floor_entry 4294967296 28939262 5 (by norm_num) (by norm_num)
  have p0 : probabilities ⟨0, by decide⟩ = 4294967295 := probabilities_eq _
  have p5 : probabilities ⟨5, by decide⟩ = 28939261 := probabilities_eq _
  refine ⟨p0, h0, by rw [h0]; decide, p5, h5, ?_⟩
  intro hall
  have h := hall ⟨0, by decide⟩
  rw [p0] at h
  simp only [pow_zero, mul_one] at h0 h
  rw [h0] at h
  exact absurd h (by decide)

/-- C17 (amended): for every level `i < maxHeight` the entry `probabilities[i]` computed
by `init` is `floor((2^32 - 1) * (1/e)^i)`, and it fits in an unsigned 32-bit value. -/
theorem probabilities_floor (i : Fin maxHeight) :
    probabilities i = ⌊((2 : ℝ) ^ 32 - 1) * (1 / Real.exp 1) ^ (i : ℕ)⌋₊ ∧
      probabilities i < 2 ^ 32 := by
  have e : (2 : ℝ) ^ 32 - 1 = ((4294967295 : ℕ) : ℝ) := by norm_num
  rw [e, probabilities_eq i]
  fin_cases i
  · exact ⟨(floor_entry 4294967295 4294967295 0 (by norm_num) (by norm_num)).symm, by decide⟩
  · exact ⟨(floor_entry 4294967295 1580030168 1 (by norm_num) (by norm_num)).symm, by decide⟩
  · exact ⟨(floor_entry 4294967295 581260615 2 (by norm_num) (by norm_num)).symm, by decide⟩
  · exact ⟨(floor_entry 4294967295 213833830 3 (by norm_num) (by norm_num)).symm, by decide⟩
  · exact ⟨(floor_entry 4294967295 78665070 4 (by norm_num) (by norm_num)).symm, by decide⟩
  · exact ⟨(floor_entry 4294967295 28939261 5 (by norm_num) (by norm_num)).symm, by decide⟩
  · exact ⟨(floor_entry 4294967295 10646159 6 (by norm_num) (by norm_num)).symm, by decide⟩
  · exact ⟨(floor_entry 4294967295 3916503 7 (by norm_num) (by norm_num)).symm, by decide⟩
  · exact ⟨(floor_entry 4294967295 1440801 8 (by norm_num) (by norm_num)).symm, by decide⟩
  · exact ⟨(floor_entry 4294967295 530041 9 (by norm_num) (by norm_num)).symm, by decide⟩
  · exact ⟨(floor_entry 4294967295 194991 10 (by norm_num) (by norm_num)).symm, by decide⟩
  · exact ⟨(floor_entry 4294967295 71733 11 (by norm_num) (by norm_num)).symm, by decide⟩
  · exact ⟨(floor_entry 4294967295 26389 12 (by norm_num) (by norm_num)).symm, by decide⟩
  · exact ⟨(floor_entry 4294967295 9708 13 (by norm_num) (by norm_num)).symm, by decide⟩
  · exact ⟨(floor_entry 4294967295 3571 14 (by norm_num) (by norm_num)).symm, by decide⟩
  · exact ⟨(floor_entry 4294967295 1313 15 (by norm_num) (by norm_num)).symm, by decide⟩
  · exact ⟨(floor_entry 4294967295 483 16 (by norm_num) (by norm_num)).symm, by decide⟩
  · exact ⟨(floor_entry 4294967295 177 17 (by norm_num) (by norm_num)).symm, by decide⟩
  · exact ⟨(floor_entry 4294967295 65 18 (by norm_num) (by norm_num)).symm, by decide⟩
  · exact ⟨(floor_entry 4294967295 24 19 (by norm_num) (by norm_num)).symm, by decide⟩

/-! ## State after an error of `SkipList.newNode` -/

end arenaskl
